import Mathlib

/-!
# Command resolution and response rendering of the GemFire management CF plugin

A shallow embedding of the pure logic of `src/gf.go` and
`src/util/requests/helpers.go`, followed by theorems about it.

Conventions of the embedding.

* A Go `string` is a sequence of bytes.  It is embedded as `GoString`, a list whose
  elements stand for the bytes, so `List.length` is Go's `len` and `List.take` /
  `List.drop` are Go's slice expressions.
* A Go `int` is embedded as `Int`; none of the functions below can overflow.
* A run-time panic (slice bounds out of range, negative repeat count) is the value
  `none` of an `Option` result.
* A Go `map` is embedded as an association list (`GoMap`).
* `json.Unmarshal` / `json.Marshal` and the HTTP transport are library code: the
  functions below act on the decoded values, and the transport is a parameter.
-/

namespace GemfirePlugin

/-! ## Strings -/

/-- A Go string: its sequence of bytes. -/
abbrev GoString := List Char

/-- Go's `strings.HasPrefix`. -/
def HasPrefix (s pre : GoString) : Bool :=
  pre.isPrefixOf s

/-- Go's `strings.Repeat`; it panics on a negative count. -/
def Repeat (s : GoString) (count : Int) : Option GoString :=
  if count < 0 then none else some (List.replicate count.toNat s).flatten

/-- Go's slice expression `s[lo:hi]`; it panics unless `0 ≤ lo ≤ hi ≤ len(s)`. -/
def slice (s : GoString) (lo hi : Int) : Option GoString :=
  if 0 ≤ lo ∧ lo ≤ hi ∧ hi ≤ (s.length : Int) then
    some ((s.take hi.toNat).drop lo.toNat)
  else none

/-- Go's `strings.TrimLeft(s, cutset)`. -/
def TrimLeft (s cutset : GoString) : GoString :=
  s.dropWhile (fun c => decide (c ∈ cutset))

/-- Go's `strings.TrimRight(s, cutset)`. -/
def TrimRight (s cutset : GoString) : GoString :=
  s.rdropWhile (fun c => decide (c ∈ cutset))

/-- Go's `strings.Trim(s, cutset)`: all leading and trailing bytes of `cutset` removed. -/
def Trim (s cutset : GoString) : GoString :=
  TrimRight (TrimLeft s cutset) cutset

/-- Go's `strings.Split(s, sep)` for a one-byte separator `sep` (the only call site
passes `" "`): the pieces between consecutive separators; the empty string gives one
empty piece. -/
def Split : GoString → Char → List GoString
  | [], _ => [[]]
  | c :: cs, sep =>
    if c = sep then [] :: Split cs sep
    else
      match Split cs sep with
      | [] => [[c]]
      | w :: ws => (c :: w) :: ws

/-- Go's `strconv.Itoa` on a non-negative count. -/
def Itoa (n : Nat) : GoString :=
  Nat.toDigits 10 n

/-! ## Maps -/

/-- A Go `map[K]V` as an association list. -/
abbrev GoMap (K V : Type) := List (K × V)

/-- The map read `m[k]`, `none` when the key is absent. -/
def GoMap.get {K V : Type} [DecidableEq K] : GoMap K V → K → Option V
  | [], _ => none
  | (k', v) :: m, k => if k' = k then some v else GoMap.get m k

/-- The map without its entries for the key `k`. -/
def GoMap.erase {K V : Type} [DecidableEq K] : GoMap K V → K → GoMap K V
  | [], _ => []
  | (k', v) :: m, k => if k' = k then GoMap.erase m k else (k', v) :: GoMap.erase m k

/-- The map write `m[k] = v`: any earlier entry for `k` is replaced. -/
def GoMap.set {K V : Type} [DecidableEq K] (m : GoMap K V) (k : K) (v : V) : GoMap K V :=
  (k, v) :: GoMap.erase m k

/-- The keys of a map. -/
def GoMap.keys {K V : Type} (m : GoMap K V) : List K :=
  m.map Prod.fst

/-! ## `gf.go`: fixed-width cells -/

/-- `Fill` of `src/gf.go`. -/
def Fill (columnSize : Int) (value : GoString) (filler : GoString) : Option GoString :=
  if (value.length : Int) > columnSize - 1 then
    (slice value 0 (columnSize - 1)).map fun cut => " ".toList ++ cut
  else
    let numFillerChars := columnSize - (value.length : Int) - 1
    (Repeat filler numFillerChars).map fun pad => " ".toList ++ value ++ pad

/-- `getTableHeadersFromClusterCommand` of `src/gf.go`. -/
def getTableHeadersFromClusterCommand (clusterCommand : GoString) : List GoString :=
  if clusterCommand = "list-regions".toList then
    ["name".toList, "type".toList, "groups".toList, "entryCount".toList,
      "regionAttributes".toList]
  else if clusterCommand = "list-members".toList then
    ["id".toList, "host".toList, "status".toList, "pid".toList]
  else []

/-! ## `util/requests/helpers.go`: the argument tokenizer -/

/-- Modelled from the spec: `domain.UserCommand`, whose declaration is not among the
sources: the command phrase and the mapping from flag name to value. -/
structure UserCommand where
  /-- The command phrase. -/
  Command : GoString
  /-- The flag-to-value mapping. -/
  Parameters : GoMap GoString GoString
deriving DecidableEq

/-- The variables of the token loop of `GetTargetAndClusterCommand`: the result under
construction and the pending `option`. -/
structure TokenLoop where
  /-- The local `userCommand`. -/
  userCommand : UserCommand
  /-- The local `option`: the flag still waiting for a value, or the empty string. -/
  option : GoString

/-- One iteration of the token loop, for `token := args[i]`. -/
def tokenStep (st : TokenLoop) (token : GoString) : TokenLoop :=
  if HasPrefix token "-".toList then
    { userCommand :=
        if st.option ≠ [] then
          { st.userCommand with
            Parameters := st.userCommand.Parameters.set st.option "true".toList }
        else st.userCommand
      option := token }
  else if st.option = [] then
    { st with
      userCommand :=
        { st.userCommand with Command := st.userCommand.Command ++ (token ++ " ".toList) } }
  else
    { userCommand :=
        { st.userCommand with Parameters := st.userCommand.Parameters.set st.option token }
      option := [] }

/-- The statements after the token loop: the command is trimmed and a pending flag is
recorded as boolean. -/
def tokenFinish (st : TokenLoop) : UserCommand :=
  let trimmed : UserCommand :=
    { st.userCommand with Command := Trim st.userCommand.Command " ".toList }
  if st.option ≠ [] then
    { trimmed with Parameters := trimmed.Parameters.set st.option "true".toList }
  else trimmed

/-- The token loop and what follows it, run over the tokens `args[commandStart:]`. -/
def parseTokens (tokens : List GoString) : UserCommand :=
  tokenFinish (tokens.foldl tokenStep { userCommand := ⟨[], []⟩, option := [] })

/-- The target and the index `commandStart` that `GetTargetAndClusterCommand` settles
on before its token loop (reached only when `len(args) >= 2`); `env` is the value of the
environment variable `CFPCC`. -/
def targetAndStart (env : GoString) (args : List GoString) : GoString × Nat :=
  if env = [] then (args.getD 1 [], 2)
  else if env ≠ args.getD 1 [] then (env, 1)
  else (env, 2)

/-- `GetTargetAndClusterCommand` of `src/util/requests/helpers.go`; the environment
variable `CFPCC` it reads is the explicit input `env`. -/
def GetTargetAndClusterCommand (env : GoString) (args : List GoString) :
    GoString × UserCommand :=
  if args.length < 2 then (env, ⟨[], []⟩)
  else
    ((targetAndStart env args).1, parseTokens (args.drop (targetAndStart env args).2))

/-- The tokens the loop of `GetTargetAndClusterCommand` visits: `args[commandStart:]`,
and none when `len(args) < 2`. -/
def parsedRange (env : GoString) (args : List GoString) : List GoString :=
  if args.length < 2 then [] else args.drop (targetAndStart env args).2

/-! ## Decoded JSON and `fmt` -/

/-- A finite `float64`: the number `(-1)^neg * mant * 2^exp`. -/
structure Float64 where
  /-- The sign bit. -/
  neg : Bool
  /-- The magnitude of the significand. -/
  mant : Nat
  /-- The binary exponent. -/
  exp : Int
deriving DecidableEq

/-- What `json.Unmarshal` stores in an `interface{}`: `nil`, `bool`, `float64`,
`string`, `[]interface{}` or `map[string]interface{}`. -/
inductive JSONValue where
  | null
  | bool (b : Bool)
  | number (n : Float64)
  | string (s : GoString)
  | array (xs : List JSONValue)
  | object (kvs : List (GoString × JSONValue))

/-- A result record, `map[string]interface{}`. -/
abbrev Record := GoMap GoString JSONValue

/-- The read `result[key]` of a record: `nil` when the key is absent. -/
def Record.index (result : Record) (key : GoString) : JSONValue :=
  (GoMap.get result key).getD JSONValue.null

/-- The nearest integer to `mant * 2^exp`, ties to even. -/
def roundHalfEven (mant : Nat) (exp : Int) : Nat :=
  if 0 ≤ exp then mant * 2 ^ exp.toNat
  else
    let d := 2 ^ (-exp).toNat
    let q := mant / d
    let r := mant % d
    if 2 * r < d then q
    else if d < 2 * r then q + 1
    else if q % 2 = 0 then q
    else q + 1

/-- The text of `fmt.Sprintf("%.0f", f)`: sign, then the value rounded to an integer. -/
def FormatF0 (f : Float64) : GoString :=
  (if f.neg then "-".toList else []) ++ Nat.toDigits 10 (roundHalfEven f.mant f.exp)

/-- Insertion of an entry into a list of entries sorted by key (byte order). -/
def insertByKey (e : GoString × GoString) : List (GoString × GoString) →
    List (GoString × GoString)
  | [] => [e]
  | x :: xs => if x.1 < e.1 then x :: insertByKey e xs else e :: x :: xs

/-- The entries sorted by key, the order in which `fmt` prints a map. -/
def sortByKey : List (GoString × GoString) → List (GoString × GoString)
  | [] => []
  | e :: es => insertByKey e (sortByKey es)

/-- Go's `strings.Join`. -/
def Join (parts : List GoString) (sep : GoString) : GoString :=
  sep.intercalate parts

mutual
/-- The text `fmt` prints for a value nested in a slice or map under the verb `%s`
(`printValue` at depth above 0).  `fmtG` is the `%v` text of a `float64`. -/
def printValueS (fmtG : Float64 → GoString) : JSONValue → GoString
  | .null => "<nil>".toList
  | .bool b =>
    "%!s(bool=".toList ++ (if b then "true".toList else "false".toList) ++ ")".toList
  | .number n => "%!s(float64=".toList ++ fmtG n ++ ")".toList
  | .string s => s
  | .array xs => "[".toList ++ Join (printValuesS fmtG xs) " ".toList ++ "]".toList
  | .object kvs =>
    "map[".toList ++
      Join ((sortByKey (printEntriesS fmtG kvs)).map fun e => e.1 ++ ":".toList ++ e.2)
        " ".toList ++ "]".toList
/-- The texts of the elements of a slice. -/
def printValuesS (fmtG : Float64 → GoString) : List JSONValue → List GoString
  | [] => []
  | x :: xs => printValueS fmtG x :: printValuesS fmtG xs
/-- The keys of a map with the texts of their values. -/
def printEntriesS (fmtG : Float64 → GoString) :
    List (GoString × JSONValue) → List (GoString × GoString)
  | [] => []
  | (k, x) :: kvs => (k, printValueS fmtG x) :: printEntriesS fmtG kvs
end

/-- The text of `fmt.Sprintf("%s", v)` for a decoded JSON value `v`: a string is
printed as it is, a slice as its elements between brackets separated by one space, a
`nil` interface as `%!s(<nil>)`.  `fmtG` is the `%v` text of a `float64`, library code
taken as a parameter. -/
def SprintfS (fmtG : Float64 → GoString) : JSONValue → GoString
  | .null => "%!s(<nil>)".toList
  | v => printValueS fmtG v

/-! ## `gf.go`: the response envelope, the table and the group filter -/

/-- `MemberStatus` of `src/gf.go`. -/
structure MemberStatus where
  /-- The field `ServerName`. -/
  ServerName : GoString
  /-- The field `Success`. -/
  Success : Bool
  /-- The field `Message`. -/
  Message : GoString

/-- `ClusterManagementResult` of `src/gf.go`, the decoded response envelope. -/
structure ClusterManagementResult where
  /-- The field `statusCode`. -/
  StatusCode : GoString
  /-- The field `statusMessage`. -/
  StatusMessage : GoString
  /-- The field `memberStatus`. -/
  MemberStatus : List MemberStatus
  /-- The field `result`. -/
  Result : List Record

/-- The body of the inner loop of `GetAnswerFromUrlResponse`: the cell of column `key`
of the record `result` is appended to `response`. -/
def appendCell (fmtG : Float64 → GoString) (result : Record) (response : GoString)
    (key : GoString) : Option GoString :=
  match result.index key with
  | .null => (Fill 20 [] " ".toList).map fun cell => response ++ (cell ++ "|".toList)
  | v =>
    let resultVal : JSONValue :=
      match v with
      | .number n => .string (FormatF0 n)
      | w => w
    (Fill 20 (SprintfS fmtG resultVal) " ".toList).map fun cell =>
      response ++ (cell ++ "|".toList)

/-- The body of the outer loop of `GetAnswerFromUrlResponse`: one record is counted
and its row, closed by a newline, is appended. -/
def appendRow (fmtG : Float64 → GoString) (tableHeaders : List GoString)
    (acc : GoString × Nat) (result : Record) : Option (GoString × Nat) :=
  (tableHeaders.foldlM (appendCell fmtG result) acc.1).map fun response =>
    (response ++ "\n".toList, acc.2 + 1)

/-- `GetAnswerFromUrlResponse` of `src/gf.go`, on the decoded envelope `urlOutput`. -/
def GetAnswerFromUrlResponse (fmtG : Float64 → GoString) (clusterCommand : GoString)
    (urlOutput : ClusterManagementResult) : Option GoString := do
  let response := "Status Code: ".toList ++ urlOutput.StatusCode ++ "\n".toList
  let response :=
    if urlOutput.StatusMessage ≠ [] then
      response ++ ("Status Message: ".toList ++ urlOutput.StatusMessage ++ "\n".toList)
    else response
  let response := response ++ "\n".toList
  let tableHeaders := getTableHeadersFromClusterCommand clusterCommand
  let response ← tableHeaders.foldlM
    (fun response header =>
      (Fill 20 header " ".toList).map fun cell => response ++ (cell ++ "|".toList))
    response
  let separator ← Fill (20 * (tableHeaders.length : Int) + 5) [] "-".toList
  let response := response ++ ("\n".toList ++ separator ++ "\n".toList)
  let (response, memberCount) ← urlOutput.Result.foldlM (appendRow fmtG tableHeaders)
    (response, 0)
  if clusterCommand = "list-regions".toList then
    pure (response ++ ("\nNumber of Regions: ".toList ++ Itoa memberCount))
  else if clusterCommand = "list-members".toList then
    pure (response ++ ("\nNumber of Members: ".toList ++ Itoa memberCount))
  else pure response

/-- The loop of `isRegionInGroups` over `groupsWeWant`. -/
def groupsLoop (fmtG : Float64 → GoString) (groupsWeHave : JSONValue) :
    List GoString → Option Bool
  | [] => some false
  | group :: rest => do
    let resultValToStr := SprintfS fmtG groupsWeHave
    let inner ← slice resultValToStr 1 ((resultValToStr.length : Int) - 1)
    if (Split inner ' ').any (fun regionName => decide (regionName = group)) then
      pure true
    else groupsLoop fmtG groupsWeHave rest

/-- `isRegionInGroups` of `src/gf.go`. -/
def isRegionInGroups (fmtG : Float64 → GoString) (regionInGroup : Bool)
    (groupsWeHave : JSONValue) (groupsWeWant : List GoString) : Option Bool :=
  if regionInGroup then some true
  else groupsLoop fmtG groupsWeHave groupsWeWant

/-- The loop of `EditResponseOnGroup` over the table headers, for one record. -/
def keysLoop (fmtG : Float64 → GoString) (result : Record) (groups : List GoString) :
    List GoString → Bool → Option Bool
  | [], regionInGroups => some regionInGroups
  | key :: keys, regionInGroups => do
    let regionInGroups ←
      if key = "groups".toList then
        isRegionInGroups fmtG regionInGroups (result.index key) groups
      else pure regionInGroups
    if regionInGroups then pure true
    else keysLoop fmtG result groups keys regionInGroups

/-- The loop of `EditResponseOnGroup` over the records; `newResult` collects the
retained ones. -/
def recordsLoop (fmtG : Float64 → GoString) (groups : List GoString)
    (clusterCommand : GoString) : List Record → List Record → Option (List Record)
  | [], newResult => some newResult
  | result :: rest, newResult => do
    let regionInGroups ←
      keysLoop fmtG result groups (getTableHeadersFromClusterCommand clusterCommand) false
    if regionInGroups then
      recordsLoop fmtG groups clusterCommand rest (newResult ++ [result])
    else recordsLoop fmtG groups clusterCommand rest newResult

/-- `EditResponseOnGroup` of `src/gf.go`, from decoded envelope to the envelope it
marshals. -/
def EditResponseOnGroup (fmtG : Float64 → GoString) (urlOutput : ClusterManagementResult)
    (groups : List GoString) (clusterCommand : GoString) :
    Option ClusterManagementResult :=
  (recordsLoop fmtG groups clusterCommand urlOutput.Result []).map fun newResult =>
    { urlOutput with Result := newResult }

/-! ## `util/requests/helpers.go`: requests and the endpoint catalog -/

/-- `NoJsonFileProvidedMessage` of `src/strings.go`. -/
def NoJsonFileProvidedMessage : GoString :=
  ("A JSON configuration file is required for all create/post commands.\n\n" ++
    "Please re-enter your command appended with -d=<your_json_configuration_file>").toList

/-- Modelled from the spec: `domain.RestAPIParam`, whose declaration is not among the
sources: a parameter's name, location and required flag. -/
structure RestAPIParam where
  /-- The parameter name. -/
  Name : GoString
  /-- Where the parameter goes: path, query or body. -/
  In : GoString
  /-- Whether the parameter is required. -/
  Required : Bool
deriving DecidableEq

/-- Modelled from the spec: the endpoint metadata the API document holds for one
path and method (command name and declared parameters); its declaration in package
`domain` is not among the sources. -/
structure RestAPICall where
  /-- The field `CommandName`. -/
  CommandName : GoString
  /-- The field `Parameters`. -/
  Parameters : List RestAPIParam
deriving DecidableEq

/-- Modelled from the spec: `domain.RestAPI`, whose declaration is not among the
sources: a mapping from URL path to a mapping from HTTP method to endpoint metadata. -/
structure RestAPI where
  /-- The field `Paths`. -/
  Paths : GoMap GoString (GoMap GoString RestAPICall)

/-- Modelled from the spec: `domain.RestEndPoint`, whose declaration is not among the
sources, with the four fields `GetEndPoints` assigns. -/
structure RestEndPoint where
  /-- The field `URL`. -/
  URL : GoString
  /-- The field `HTTPMethod`. -/
  HTTPMethod : GoString
  /-- The field `CommandName`. -/
  CommandName : GoString
  /-- The field `Parameters`. -/
  Parameters : List RestAPIParam
deriving DecidableEq

/-- Modelled from the spec: the connection data of `domain.CommandData`, whose
declaration is not among the sources. -/
structure ConnectionData where
  /-- The field `Username`. -/
  Username : GoString
  /-- The field `Password`. -/
  Password : GoString
  /-- The field `LocatorAddress`. -/
  LocatorAddress : GoString

/-- Modelled from the spec: `domain.CommandData`, whose declaration is not among the
sources, with the fields the functions below read and write. -/
structure CommandData where
  /-- The field `Target`. -/
  Target : GoString
  /-- The field `UserCommand`. -/
  UserCommand : UserCommand
  /-- The field `ConnnectionData`. -/
  ConnnectionData : ConnectionData
  /-- The field `AvailableEndpoints`. -/
  AvailableEndpoints : GoMap GoString RestEndPoint

/-- The request handed to the HTTP client: method, URL, body and basic-auth pair. -/
structure HTTPRequest where
  /-- The HTTP method. -/
  method : GoString
  /-- The request URL. -/
  url : GoString
  /-- The content of the body reader, `none` for a nil reader. -/
  body : Option GoString
  /-- The basic-auth user. -/
  username : GoString
  /-- The basic-auth password. -/
  password : GoString

/-- `getBodyReader` of `src/util/requests/helpers.go`.  `osOpen` stands for `os.Open`:
the content of the named file or the error of opening it. -/
def getBodyReader (osOpen : GoString → Except GoString GoString) (jsonFile : GoString) :
    Except GoString GoString :=
  if jsonFile = [] then .error NoJsonFileProvidedMessage
  else if jsonFile.head? = some '@' ∧ jsonFile.length > 1 then osOpen (jsonFile.drop 1)
  else .ok jsonFile

/-- `ExecuteCommand` of `src/util/requests/helpers.go`.  `transport` stands for building
the request, `client.Do` and reading the response body: the body text or the error. -/
def ExecuteCommand (osOpen : GoString → Except GoString GoString)
    (transport : HTTPRequest → Except GoString GoString)
    (endpointURL : GoString) (httpAction : GoString) (commandData : CommandData) :
    Except GoString GoString := do
  let bodyReader ←
    if httpAction = "POST".toList then
      (getBodyReader osOpen
        ((commandData.UserCommand.Parameters.get "-body".toList).getD [])).map some
    else pure none
  transport
    { method := httpAction
      url := endpointURL
      body := bodyReader
      username := commandData.ConnnectionData.Username
      password := commandData.ConnnectionData.Password }

/-- The read `apiPaths.Paths[url][methodType]`, the zero value when a key is absent. -/
def RestAPI.at (apiPaths : RestAPI) (url methodType : GoString) : RestAPICall :=
  (((apiPaths.Paths.get url).getD []).get methodType).getD ⟨[], []⟩

/-- The inner loop of `GetEndPoints`, over the methods `v` of the path `url`. -/
def methodsLoop (apiPaths : RestAPI) (url : GoString) (v : GoMap GoString RestAPICall)
    (endpoints : GoMap GoString RestEndPoint) : GoMap GoString RestEndPoint :=
  v.foldl
    (fun endpoints entry =>
      let methodType := entry.1
      let endpoint : RestEndPoint :=
        { URL := url
          HTTPMethod := methodType
          CommandName := (apiPaths.at url methodType).CommandName
          Parameters := (apiPaths.at url methodType).Parameters }
      endpoints.set endpoint.CommandName endpoint)
    endpoints

/-- The outer loop of `GetEndPoints`, over the paths of the document, starting from the
empty map.  A Go map is visited in no fixed order: the order of the association lists
stands for the order of one run. -/
def pathsLoop (apiPaths : RestAPI) : GoMap GoString RestEndPoint :=
  apiPaths.Paths.foldl (fun endpoints entry => methodsLoop apiPaths entry.1 entry.2 endpoints)
    []

/-- `GetEndPoints` of `src/util/requests/helpers.go`: the updated command data or the
error.  `unmarshal` stands for `json.Unmarshal` into a `domain.RestAPI`. -/
def GetEndPoints (osOpen : GoString → Except GoString GoString)
    (transport : HTTPRequest → Except GoString GoString)
    (unmarshal : GoString → Option RestAPI) (commandData : CommandData) :
    Except GoString CommandData :=
  let apiDocURL :=
    commandData.ConnnectionData.LocatorAddress ++ "/management/experimental/api-docs".toList
  match ExecuteCommand osOpen transport apiDocURL "GET".toList commandData with
  | .error err => .error ("unable to reach ".toList ++ apiDocURL ++ ": ".toList ++ err)
  | .ok urlResponse =>
    match unmarshal urlResponse with
    | none => .error ("invalid response ".toList ++ urlResponse)
    | some apiPaths => .ok { commandData with AvailableEndpoints := pathsLoop apiPaths }

/-! ## Specification-level definitions -/

/-- The cell of width 20 in the words of the specification: one leading space, then
the first 19 bytes of an over-length value, or the value padded with spaces. -/
def padCell (v : GoString) : GoString :=
  if 19 < v.length then ' ' :: v.take 19
  else ' ' :: (v ++ List.replicate (19 - v.length) ' ')

/-- Tokens that form well-formed `-flag value` / `-flag` pairs: a flag token, then at
most one non-flag token as its value, and so on. -/
def flagPairs : List GoString → Bool
  | [] => true
  | [f] => HasPrefix f "-".toList
  | f :: v :: rest =>
    HasPrefix f "-".toList &&
      (if HasPrefix v "-".toList then flagPairs (v :: rest) else flagPairs rest)

/-- A token range that consists of command words (non-flag tokens) followed only by
well-formed `-flag value` / `-flag` pairs. -/
def wordsThenFlagPairs (tokens : List GoString) : Bool :=
  flagPairs (tokens.dropWhile fun t => !HasPrefix t "-".toList)

/-- The entries of a parameter map flattened back into tokens: for each entry the flag
name followed by its value. -/
def flattenParameters (entries : List (GoString × GoString)) : List GoString :=
  entries.flatMap fun e => [e.1, e.2]

/-- The invariant of the parameter map under the token loop: every key begins with
`-`, no value does, and no key occurs twice. -/
def FlagMap (m : GoMap GoString GoString) : Prop :=
  (∀ e ∈ m, HasPrefix e.1 "-".toList = true ∧ HasPrefix e.2 "-".toList = false) ∧
    (GoMap.keys m).Nodup

/-- The names of a `groups` value in the words of the specification: its `%s` text
with the first and the last byte (the brackets) removed, split at every space. -/
def groupNames (fmtG : Float64 → GoString) (groupsWeHave : JSONValue) : List GoString :=
  Split ((SprintfS fmtG groupsWeHave).drop 1).dropLast ' '

/-- A record whose group names share at least one name with the desired groups. -/
def sharesGroup (fmtG : Float64 → GoString) (groups : List GoString) (result : Record) :
    Bool :=
  decide (∃ g ∈ groups, g ∈ groupNames fmtG (result.index "groups".toList))

/-- The text of a table cell in the words of the specification: empty for an absent
field, the value itself for a string, the number with zero decimal places for a number;
any other value is printed by `%s`. -/
def cellText (fmtG : Float64 → GoString) : JSONValue → GoString
  | .null => []
  | .number n => FormatF0 n
  | .string s => s
  | v => SprintfS fmtG v

/-- The row of a record in the words of the specification: for each header in order the
padded cell of the field's text followed by `|`. -/
def tableRow (fmtG : Float64 → GoString) (tableHeaders : List GoString) (result : Record) :
    GoString :=
  tableHeaders.flatMap fun key =>
    padCell (cellText fmtG (result.index key)) ++ "|".toList

/-- The header row: for each header in order its padded cell followed by `|`. -/
def headerRow (tableHeaders : List GoString) : GoString :=
  tableHeaders.flatMap fun header => padCell header ++ "|".toList

/-- The status lines that open the answer, closed by an empty line. -/
def statusLines (urlOutput : ClusterManagementResult) : GoString :=
  "Status Code: ".toList ++ urlOutput.StatusCode ++ "\n".toList ++
    (if urlOutput.StatusMessage ≠ [] then
      "Status Message: ".toList ++ urlOutput.StatusMessage ++ "\n".toList
    else []) ++ "\n".toList

/-- The separator line under the header row of `n` columns: one space, then dashes up
to the width `20 * n + 5`. -/
def separatorLine (n : Nat) : GoString :=
  ' ' :: List.replicate (20 * n + 4) '-'

/-- The summary that closes the answer. -/
def summaryLine (clusterCommand : GoString) (memberCount : Nat) : GoString :=
  if clusterCommand = "list-regions".toList then
    "\nNumber of Regions: ".toList ++ Itoa memberCount
  else if clusterCommand = "list-members".toList then
    "\nNumber of Members: ".toList ++ Itoa memberCount
  else []

/-- The (path, method) pairs an API document declares, each with its metadata. -/
def declaredPairs (apiPaths : RestAPI) : List (GoString × GoString × RestAPICall) :=
  apiPaths.Paths.flatMap fun entry => entry.2.map fun call => (entry.1, call.1, call.2)

/-- The catalog entry of a declared (path, method) pair: its command name and the
endpoint with the pair's URL, method and parameters. -/
def endpointOf (pair : GoString × GoString × RestAPICall) : GoString × RestEndPoint :=
  (pair.2.2.CommandName,
    { URL := pair.1
      HTTPMethod := pair.2.1
      CommandName := pair.2.2.CommandName
      Parameters := pair.2.2.Parameters })

/-! ## Lemmas on strings and cells -/

theorem replicate_space_flatten (n : Nat) :
    (List.replicate n " ".toList).flatten = List.replicate n ' ' := by
  induction n with
  | zero => rfl
  | succ n ih =>
    simp only [List.replicate_succ, List.flatten_cons, ih]
    rfl

theorem Fill_twenty_eq (v : GoString) : Fill 20 v " ".toList = some (padCell v) := by
  unfold Fill padCell
  by_cases h : 19 < v.length
  · have h1 : (v.length : Int) > 20 - 1 := by omega
    have h2 : (0 : Int) ≤ 0 ∧ (0 : Int) ≤ 20 - 1 ∧ (20 : Int) - 1 ≤ (v.length : Int) := by
      omega
    simp only [h1, h, if_true, slice, h2, and_self, Option.map_some']
    rfl
  · have h1 : ¬ (v.length : Int) > 20 - 1 := by omega
    have h2 : ¬ ((20 : Int) - (v.length : Int) - 1 < 0) := by omega
    have h3 : ((20 : Int) - (v.length : Int) - 1).toNat = 19 - v.length := by omega
    simp only [h1, h, if_false, Repeat, h2, Option.map_some', h3, replicate_space_flatten]
    rfl

theorem padCell_length (v : GoString) : (padCell v).length = 20 := by
  unfold padCell
  by_cases h : 19 < v.length
  · simp only [h, if_true, List.length_cons, List.length_take]
    omega
  · simp only [h, if_false, List.length_cons, List.length_append, List.length_replicate]
    omega

/-! ## Theorems -/

/-- C1: for every string `v`, `Fill(20, v, " ")` returns one leading space followed by
the first 19 bytes of `v` when `v` is longer than 19, and otherwise one leading space,
`v`, and `19 - len(v)` spaces; the result has length 20 and the rendered cell, the
result followed by `|`, has length 21. -/
theorem Fill_twenty_cell (v : GoString) :
    ∃ cell, Fill 20 v " ".toList = some cell ∧
      cell = (if 19 < v.length then " ".toList ++ v.take 19
        else " ".toList ++ v ++ List.replicate (19 - v.length) ' ') ∧
      cell.length = 20 ∧ (cell ++ "|".toList).length = 21 := by
  refine ⟨padCell v, Fill_twenty_eq v, ?_, padCell_length v, ?_⟩
  · unfold padCell
    split <;> rfl
  · rw [List.length_append, padCell_length]
    rfl

/-! ## Lemmas on maps and the token loop -/

theorem GoMap.get_erase_ne {K V : Type} [DecidableEq K] (m : GoMap K V) (k k' : K)
    (h : k' ≠ k) : GoMap.get (GoMap.erase m k) k' = GoMap.get m k' := by
  induction m with
  | nil => rfl
  | cons a m ih =>
    obtain ⟨a, v⟩ := a
    by_cases hak : a = k
    · have hak' : ¬ a = k' := fun e => h (e ▸ hak)
      simp only [GoMap.erase, hak, if_true, ih]
      simp only [GoMap.get, ← hak, hak', if_false]
    · simp only [GoMap.erase, hak, if_false, GoMap.get, ih]

theorem GoMap.get_set {K V : Type} [DecidableEq K] (m : GoMap K V) (k k' : K) (v : V) :
    GoMap.get (GoMap.set m k v) k' = if k = k' then some v else GoMap.get m k' := by
  unfold GoMap.set
  by_cases h : k = k'
  · simp only [GoMap.get, h, if_true]
  · have h' : k' ≠ k := fun e => h e.symm
    simp only [GoMap.get, h, if_false]
    exact GoMap.get_erase_ne m k k' h'

theorem HasPrefix_dash_ne_nil (t : GoString) (h : HasPrefix t "-".toList = true) :
    t ≠ [] := by
  intro e
  subst e
  simp [HasPrefix] at h

theorem GetTargetAndClusterCommand_snd (env : GoString) (args : List GoString) :
    (GetTargetAndClusterCommand env args).2 = parseTokens (parsedRange env args) := by
  unfold GetTargetAndClusterCommand parsedRange
  split <;> rfl

theorem tokenStep_flag_idle (st : TokenLoop) (t : GoString)
    (h : HasPrefix t "-".toList = true) (ho : st.option = []) :
    tokenStep st t = { userCommand := st.userCommand, option := t } := by
  unfold tokenStep
  rw [if_pos h, if_neg (not_not.mpr ho)]

theorem tokenStep_flag_pending (st : TokenLoop) (t : GoString)
    (h : HasPrefix t "-".toList = true) (ho : st.option ≠ []) :
    tokenStep st t =
      { userCommand :=
          { st.userCommand with
            Parameters := st.userCommand.Parameters.set st.option "true".toList }
        option := t } := by
  unfold tokenStep
  rw [if_pos h, if_pos ho]

theorem tokenStep_word (st : TokenLoop) (t : GoString)
    (h : ¬ HasPrefix t "-".toList = true) (ho : st.option = []) :
    tokenStep st t =
      { userCommand :=
          { st.userCommand with Command := st.userCommand.Command ++ (t ++ " ".toList) }
        option := [] } := by
  unfold tokenStep
  rw [if_neg h, if_pos ho]
  cases st
  simp only at ho
  subst ho
  rfl

theorem tokenStep_value (st : TokenLoop) (t : GoString)
    (h : ¬ HasPrefix t "-".toList = true) (ho : st.option ≠ []) :
    tokenStep st t =
      { userCommand :=
          { st.userCommand with Parameters := st.userCommand.Parameters.set st.option t }
        option := [] } := by
  unfold tokenStep
  rw [if_neg h, if_neg ho]

/-- A key that is neither pending nor among the remaining tokens keeps its value. -/
theorem tokenLoop_get_of_not_mem (k : GoString) (hk : k ≠ []) :
    ∀ (toks : List GoString) (st : TokenLoop), st.option ≠ k → k ∉ toks →
      (tokenFinish (toks.foldl tokenStep st)).Parameters.get k =
        st.userCommand.Parameters.get k := by
  intro toks
  induction toks with
  | nil =>
    intro st ho _
    simp only [List.foldl_nil, tokenFinish]
    split
    · simp only [GoMap.get_set, ho, if_false]
    · rfl
  | cons t toks ih =>
    intro st ho hmem
    have htk : t ≠ k := fun e => hmem (e ▸ List.mem_cons_self _ _)
    have hmem' : k ∉ toks := fun e => hmem (List.mem_cons_of_mem _ e)
    rw [List.foldl_cons]
    by_cases hflag : HasPrefix t "-".toList = true
    · by_cases hopt : st.option = []
      · rw [tokenStep_flag_idle st t hflag hopt, ih _ htk hmem']
      · rw [tokenStep_flag_pending st t hflag hopt, ih _ htk hmem']
        simp only [GoMap.get_set, ho, if_false]
    · by_cases hopt : st.option = []
      · rw [tokenStep_word st t hflag hopt, ih _ (fun e => hk e.symm) hmem']
      · rw [tokenStep_value st t hflag hopt, ih _ (fun e => hk e.symm) hmem']
        simp only [GoMap.get_set, ho, if_false]

/-- The value recorded for a flag token that does not occur again: the next token when
that is not a flag, `"true"` otherwise. -/
theorem tokenLoop_get_flag (f : GoString) (hf : HasPrefix f "-".toList = true)
    (pre post : List GoString) (st : TokenLoop) (hpost : f ∉ post) :
    (tokenFinish ((pre ++ f :: post).foldl tokenStep st)).Parameters.get f =
      some (match post.head? with
        | none => "true".toList
        | some t => if HasPrefix t "-".toList then "true".toList else t) := by
  have hne : f ≠ [] := HasPrefix_dash_ne_nil f hf
  rw [List.foldl_append, List.foldl_cons]
  generalize List.foldl tokenStep st pre = st1
  have hopt : (tokenStep st1 f).option = f := by
    by_cases ho : st1.option = []
    · rw [tokenStep_flag_idle st1 f hf ho]
    · rw [tokenStep_flag_pending st1 f hf ho]
  generalize tokenStep st1 f = st2 at hopt
  have ho2 : st2.option ≠ [] := by rw [hopt]; exact hne
  cases post with
  | nil =>
    simp only [List.foldl_nil, tokenFinish, hopt, ne_eq, hne, not_false_eq_true, if_true,
      GoMap.get_set, List.head?_nil]
  | cons t rest =>
    have htf : t ≠ f := fun e => hpost (e ▸ List.mem_cons_self _ _)
    have hrest : f ∉ rest := fun e => hpost (List.mem_cons_of_mem _ e)
    rw [List.foldl_cons]
    by_cases ht : HasPrefix t "-".toList = true
    · rw [tokenStep_flag_pending st2 t ht ho2, tokenLoop_get_of_not_mem f hne rest _ htf hrest]
      simp only [GoMap.get_set, hopt, if_true, List.head?_cons, ht]
    · rw [tokenStep_value st2 t ht ho2,
        tokenLoop_get_of_not_mem f hne rest _ (fun e => hne e.symm) hrest]
      simp only [GoMap.get_set, hopt, if_true, List.head?_cons, ht, Bool.false_eq_true,
        if_false]

theorem GoMap.mem_keys_erase {K V : Type} [DecidableEq K] (m : GoMap K V) (k k' : K)
    (h : k' ∈ GoMap.keys (GoMap.erase m k)) : k' ∈ GoMap.keys m ∧ k' ≠ k := by
  induction m with
  | nil => simp [GoMap.erase, GoMap.keys] at h
  | cons a m ih =>
    obtain ⟨a, v⟩ := a
    by_cases hak : a = k
    · simp only [GoMap.erase, hak, if_true] at h
      exact ⟨List.mem_cons_of_mem _ (ih h).1, (ih h).2⟩
    · simp only [GoMap.erase, hak, if_false, GoMap.keys, List.map_cons, List.mem_cons] at h
      rcases h with h | h
      · exact ⟨h ▸ List.mem_cons_self _ _, h ▸ hak⟩
      · exact ⟨List.mem_cons_of_mem _ (ih h).1, (ih h).2⟩

theorem GoMap.mem_keys_set {K V : Type} [DecidableEq K] (m : GoMap K V) (k k' : K) (v : V)
    (h : k' ∈ GoMap.keys (GoMap.set m k v)) : k' = k ∨ k' ∈ GoMap.keys m := by
  simp only [GoMap.set, GoMap.keys, List.map_cons, List.mem_cons] at h
  rcases h with h | h
  · exact Or.inl h
  · exact Or.inr (GoMap.mem_keys_erase m k k' h).1

/-- Every key of the final map is a key of the starting map, the pending option or a
flag token. -/
theorem tokenLoop_keys (Q : GoString → Prop) :
    ∀ (toks : List GoString) (st : TokenLoop),
      (∀ k ∈ GoMap.keys st.userCommand.Parameters, Q k) → (st.option ≠ [] → Q st.option) →
      (∀ t ∈ toks, HasPrefix t "-".toList = true → Q t) →
      ∀ k ∈ GoMap.keys (tokenFinish (toks.foldl tokenStep st)).Parameters, Q k := by
  intro toks
  induction toks with
  | nil =>
    intro st hP ho _ k hk
    simp only [List.foldl_nil, tokenFinish] at hk
    split at hk
    · next hopt =>
      rcases GoMap.mem_keys_set _ _ _ _ hk with h | h
      · exact h ▸ ho hopt
      · exact hP k h
    · exact hP k hk
  | cons t toks ih =>
    intro st hP ho htoks
    rw [List.foldl_cons]
    have htoks' : ∀ t' ∈ toks, HasPrefix t' "-".toList = true → Q t' :=
      fun t' ht' => htoks t' (List.mem_cons_of_mem _ ht')
    have hset : ∀ v, st.option ≠ [] →
        ∀ k ∈ GoMap.keys (st.userCommand.Parameters.set st.option v), Q k := by
      intro v hopt k hk
      rcases GoMap.mem_keys_set _ _ _ _ hk with h | h
      · exact h ▸ ho hopt
      · exact hP k h
    by_cases hflag : HasPrefix t "-".toList = true
    · have hQt : Q t := htoks t (List.mem_cons_self _ _) hflag
      by_cases hopt : st.option = []
      · rw [tokenStep_flag_idle st t hflag hopt]
        exact ih _ hP (fun _ => hQt) htoks'
      · rw [tokenStep_flag_pending st t hflag hopt]
        exact ih _ (hset _ hopt) (fun _ => hQt) htoks'
    · by_cases hopt : st.option = []
      · rw [tokenStep_word st t hflag hopt]
        exact ih _ hP (fun h => absurd rfl h) htoks'
      · rw [tokenStep_value st t hflag hopt]
        exact ih _ (hset _ hopt) (fun h => absurd rfl h) htoks'

theorem not_mem_drop_of_count_one (toks : List GoString) (i : Nat) (f : GoString)
    (hi : toks[i]? = some f) (hc : toks.count f = 1) : f ∉ toks.drop (i + 1) := by
  intro hmem
  have hlt : i < toks.length := by
    rcases Nat.lt_or_ge i toks.length with h | h
    · exact h
    · rw [List.getElem?_eq_none h] at hi
      cases hi
  have hsplit : toks = toks.take i ++ f :: toks.drop (i + 1) := by
    have hget : toks[i] = f := by
      rw [List.getElem?_eq_getElem hlt] at hi
      exact Option.some.inj hi
    rw [← hget, List.getElem_cons_drop toks i hlt, List.take_append_drop]
  have h1 : 0 < (toks.drop (i + 1)).count f := List.count_pos_iff.mpr hmem
  rw [hsplit, List.count_append, List.count_cons_self] at hc
  omega

/-- C2: in the result of `GetTargetAndClusterCommand`, every flag token `f` (a token
beginning with `-`) of the parsed range whose name occurs only once there is recorded
with value `"true"` when it is the last token or the token after it also begins with
`-`, and otherwise with exactly the token after it; and every key of `Parameters` is a
flag token of the parsed range. -/
theorem GetTargetAndClusterCommand_parameters (env : GoString) (args : List GoString) :
    (∀ (i : Nat) (f : GoString), (parsedRange env args)[i]? = some f →
      HasPrefix f "-".toList = true → (parsedRange env args).count f = 1 →
      (GetTargetAndClusterCommand env args).2.Parameters.get f =
        some (match (parsedRange env args)[i + 1]? with
          | none => "true".toList
          | some t => if HasPrefix t "-".toList then "true".toList else t)) ∧
    (∀ k ∈ GoMap.keys (GetTargetAndClusterCommand env args).2.Parameters,
      k ∈ parsedRange env args ∧ HasPrefix k "-".toList = true) := by
  rw [GetTargetAndClusterCommand_snd]
  generalize parsedRange env args = toks
  constructor
  · intro i f hi hf hc
    have hlt : i < toks.length := by
      rcases Nat.lt_or_ge i toks.length with h | h
      · exact h
      · rw [List.getElem?_eq_none h] at hi
        cases hi
    have hget : toks[i] = f := by
      rw [List.getElem?_eq_getElem hlt] at hi
      exact Option.some.inj hi
    have hsplit : toks = toks.take i ++ f :: toks.drop (i + 1) := by
      rw [← hget, List.getElem_cons_drop toks i hlt, List.take_append_drop]
    have hnext : (toks.drop (i + 1)).head? = toks[i + 1]? := by
      rw [List.head?_drop]
    have key := tokenLoop_get_flag f hf (toks.take i) (toks.drop (i + 1))
      { userCommand := ⟨[], []⟩, option := [] } (not_mem_drop_of_count_one toks i f hi hc)
    rw [← hsplit, hnext] at key
    exact key
  · intro k hk
    refine tokenLoop_keys (fun k => k ∈ toks ∧ HasPrefix k "-".toList = true) toks
      { userCommand := ⟨[], []⟩, option := [] } ?_ ?_ ?_ k hk
    · intro k hk
      simp [GoMap.keys] at hk
    · intro h
      exact absurd rfl h
    · intro t ht hflag
      exact ⟨ht, hflag⟩

/-- C2, at an instance: with `CFPCC` unset and the arguments
`pcc cluster1 list regions -v -name r1 -force`, the flag `-v` (followed by a flag) and
the flag `-force` (last) are recorded as `"true"` and `-name` with the value `r1`. -/
theorem GetTargetAndClusterCommand_parameters_witness :
    (GetTargetAndClusterCommand []
        ["pcc".toList, "cluster1".toList, "list".toList, "regions".toList, "-v".toList,
          "-name".toList, "r1".toList, "-force".toList]).2.Parameters.get "-name".toList =
      some "r1".toList ∧
    (GetTargetAndClusterCommand []
        ["pcc".toList, "cluster1".toList, "list".toList, "regions".toList, "-v".toList,
          "-name".toList, "r1".toList, "-force".toList]).2.Parameters.get "-v".toList =
      some "true".toList :=
  ⟨(GetTargetAndClusterCommand_parameters []
      ["pcc".toList, "cluster1".toList, "list".toList, "regions".toList, "-v".toList,
        "-name".toList, "r1".toList, "-force".toList]).1 3 "-name".toList
      (by decide) (by decide) (by decide),
   (GetTargetAndClusterCommand_parameters []
      ["pcc".toList, "cluster1".toList, "list".toList, "regions".toList, "-v".toList,
        "-name".toList, "r1".toList, "-force".toList]).1 2 "-v".toList
      (by decide) (by decide) (by decide)⟩

/-- C3, the code at the tokens `list -a x regions` (failing input): with `CFPCC` unset and
the arguments `pcc cluster1 list -a x regions`, the command phrase returned by
`GetTargetAndClusterCommand` is `list regions`, not `list`: the non-flag token `regions`
that follows the completed pair `-a x` is appended to the command. -/
theorem GetTargetAndClusterCommand_command_after_flag :
    (GetTargetAndClusterCommand []
        ["pcc".toList, "cluster1".toList, "list".toList, "-a".toList, "x".toList,
          "regions".toList]).2.Command = "list regions".toList ∧
    (GetTargetAndClusterCommand []
        ["pcc".toList, "cluster1".toList, "list".toList, "-a".toList, "x".toList,
          "regions".toList]).2.Command ≠ "list".toList := by
  decide

/-- C7, the code at a POST that supplies only `-d` (failing input): whatever the file
system and the transport do, `ExecuteCommand` with method `POST` and the single
parameter `-d` with value `@region.json` returns the missing-body error without calling
the transport, because only the key `-body` is read. -/
theorem ExecuteCommand_post_with_d_only (osOpen : GoString → Except GoString GoString)
    (transport : HTTPRequest → Except GoString GoString) (endpointURL target : GoString)
    (connection : ConnectionData) (endpoints : GoMap GoString RestEndPoint) :
    ExecuteCommand osOpen transport endpointURL "POST".toList
        { Target := target
          UserCommand :=
            { Command := "create region".toList
              Parameters := [("-d".toList, "@region.json".toList)] }
          ConnnectionData := connection
          AvailableEndpoints := endpoints } =
      .error NoJsonFileProvidedMessage := by
  rfl

/-- C8: for arguments with at least two elements and the environment default target
`env`: when `env` is empty the target is `args[1]` and the tokens parsed are `args[2:]`;
when `env` is non-empty and equals `args[1]` the target is `env` and the tokens parsed
are `args[2:]`; when `env` is non-empty and differs from `args[1]` the target is `env`
and the tokens parsed are `args[1:]`, so that `args[1]` is the first token read. -/
theorem GetTargetAndClusterCommand_target (env : GoString) (args : List GoString)
    (h : 2 ≤ args.length) :
    GetTargetAndClusterCommand env args =
      (if env = [] then (args[1], parseTokens (args.drop 2))
        else if args[1] = env then (env, parseTokens (args.drop 2))
        else (env, parseTokens (args[1] :: args.drop 2))) := by
  have hlt : ¬ args.length < 2 := by omega
  have hget : args.getD 1 [] = args[1] := by
    rw [List.getD_eq_getElem?_getD, List.getElem?_eq_getElem (by omega)]
    rfl
  have hdrop : args.drop 1 = args[1] :: args.drop 2 :=
    List.drop_eq_getElem_cons (by omega)
  unfold GetTargetAndClusterCommand targetAndStart
  rw [if_neg hlt, hget]
  by_cases he : env = []
  · simp only [he, if_true]
  · by_cases ha : args[1] = env
    · have ha' : ¬ env ≠ args[1] := fun c => c ha.symm
      rw [if_neg he, if_neg ha', if_neg he, if_pos ha]
    · have ha' : env ≠ args[1] := fun c => ha c.symm
      rw [if_neg he, if_pos ha', if_neg he, if_neg ha, hdrop]

/-- C8, at instances: `pcc cluster1 list regions` with no default target, with the
default target `cluster1`, and with the default target `other`. -/
theorem GetTargetAndClusterCommand_target_witness :
    GetTargetAndClusterCommand []
        ["pcc".toList, "cluster1".toList, "list".toList, "regions".toList] =
      ("cluster1".toList, ⟨"list regions".toList, []⟩) ∧
    GetTargetAndClusterCommand "cluster1".toList
        ["pcc".toList, "cluster1".toList, "list".toList, "regions".toList] =
      ("cluster1".toList, ⟨"list regions".toList, []⟩) ∧
    GetTargetAndClusterCommand "other".toList
        ["pcc".toList, "cluster1".toList, "list".toList, "regions".toList] =
      ("other".toList, ⟨"cluster1 list regions".toList, []⟩) := by
  refine ⟨?_, ?_, ?_⟩
  · rw [GetTargetAndClusterCommand_target [] _ (by decide)]
    rfl
  · rw [GetTargetAndClusterCommand_target "cluster1".toList _ (by decide)]
    rfl
  · rw [GetTargetAndClusterCommand_target "other".toList _ (by decide)]
    rfl

/-! ## Lemmas for re-tokenizing a parsed command -/

theorem dropWhile_eq_cons_not {α : Type} (p : α → Bool) (a : α) (r : List α) :
    ∀ X : List α, X.dropWhile p = a :: r → p a = false := by
  intro X
  induction X with
  | nil => intro h; cases h
  | cons x X ih =>
    intro h
    by_cases hx : p x = true
    · rw [List.dropWhile_cons_of_pos hx] at h
      exact ih h
    · rw [List.dropWhile_cons_of_neg hx] at h
      cases h
      simpa using hx

theorem Trim_Trim_append_space (X : GoString) :
    Trim (Trim X " ".toList ++ " ".toList) " ".toList = Trim X " ".toList := by
  unfold Trim TrimLeft TrimRight
  generalize hp : (fun c : Char => decide (c ∈ " ".toList)) = p
  have hsp : p ' ' = true := by rw [← hp]; decide
  generalize hY : List.dropWhile p X = Y
  cases hc : List.rdropWhile p Y with
  | nil =>
    have h1 : ([] : GoString) ++ " ".toList = [' '] := rfl
    rw [h1, List.dropWhile_cons_of_pos hsp]
    rfl
  | cons a c =>
    have hpre : a :: c <+: Y := hc ▸ List.rdropWhile_prefix p Y
    obtain ⟨r, hr⟩ := hpre
    have hpa : p a = false := by
      refine dropWhile_eq_cons_not p a (c ++ r) X ?_
      rw [hY, ← hr]
      rfl
    have h1 : (a :: c) ++ " ".toList = a :: (c ++ [' ']) := rfl
    have h2 : a :: (c ++ [' ']) = (a :: c) ++ [' '] := rfl
    rw [h1, List.dropWhile_cons_of_neg (by simp [hpa]), h2,
      List.rdropWhile_concat_pos p (a :: c) ' ' hsp, ← hc, List.rdropWhile_idempotent]

theorem GoMap.erase_sublist {K V : Type} [DecidableEq K] (m : GoMap K V) (k : K) :
    (GoMap.erase m k).Sublist m := by
  induction m with
  | nil => exact List.Sublist.refl _
  | cons a m ih =>
    obtain ⟨a, v⟩ := a
    by_cases hak : a = k
    · simp only [GoMap.erase, hak, if_true]
      exact List.Sublist.cons _ ih
    · simp only [GoMap.erase, hak, if_false]
      exact List.Sublist.cons₂ _ ih

theorem FlagMap_set (m : GoMap GoString GoString) (k v : GoString) (hm : FlagMap m)
    (hk : HasPrefix k "-".toList = true) (hv : HasPrefix v "-".toList = false) :
    FlagMap (GoMap.set m k v) := by
  constructor
  · intro e he
    simp only [GoMap.set, List.mem_cons] at he
    rcases he with he | he
    · subst he
      exact ⟨hk, hv⟩
    · exact hm.1 e ((GoMap.erase_sublist m k).subset he)
  · simp only [GoMap.set, GoMap.keys, List.map_cons, List.nodup_cons]
    constructor
    · intro hmem
      exact (GoMap.mem_keys_erase m k k hmem).2 rfl
    · exact List.Nodup.sublist ((GoMap.erase_sublist m k).map Prod.fst) hm.2

theorem tokenLoop_FlagMap :
    ∀ (toks : List GoString) (st : TokenLoop), FlagMap st.userCommand.Parameters →
      (st.option ≠ [] → HasPrefix st.option "-".toList = true) →
      FlagMap (tokenFinish (toks.foldl tokenStep st)).Parameters := by
  intro toks
  induction toks with
  | nil =>
    intro st hP ho
    simp only [List.foldl_nil, tokenFinish]
    split
    · next hopt => exact FlagMap_set _ _ _ hP (ho hopt) rfl
    · exact hP
  | cons t toks ih =>
    intro st hP ho
    rw [List.foldl_cons]
    by_cases hflag : HasPrefix t "-".toList = true
    · by_cases hopt : st.option = []
      · rw [tokenStep_flag_idle st t hflag hopt]
        exact ih _ hP (fun _ => hflag)
      · rw [tokenStep_flag_pending st t hflag hopt]
        exact ih _ (FlagMap_set _ _ _ hP (ho hopt) rfl) (fun _ => hflag)
    · by_cases hopt : st.option = []
      · rw [tokenStep_word st t hflag hopt]
        exact ih _ hP (fun h => absurd rfl h)
      · rw [tokenStep_value st t hflag hopt]
        have hv : HasPrefix t "-".toList = false := by
          cases hb : HasPrefix t "-".toList
          · rfl
          · exact absurd hb hflag
        exact ih _ (FlagMap_set _ _ _ hP (ho hopt) hv) (fun h => absurd rfl h)

theorem parseTokens_FlagMap (toks : List GoString) : FlagMap (parseTokens toks).Parameters := by
  refine tokenLoop_FlagMap toks _ ?_ (fun h => absurd rfl h)
  exact ⟨fun e he => absurd he (List.not_mem_nil e), List.nodup_nil⟩

/-- The token loop over flattened entries writes each entry and leaves no flag pending. -/
theorem tokenLoop_flatten :
    ∀ (es : List (GoString × GoString)) (st : TokenLoop),
      (∀ e ∈ es, HasPrefix e.1 "-".toList = true ∧ HasPrefix e.2 "-".toList = false) →
      st.option = [] →
      (flattenParameters es).foldl tokenStep st =
        { userCommand :=
            { st.userCommand with
              Parameters := es.foldl (fun m e => GoMap.set m e.1 e.2)
                st.userCommand.Parameters }
          option := [] } := by
  intro es
  induction es with
  | nil =>
    intro st _ ho
    cases st
    simp only at ho
    subst ho
    rfl
  | cons e es ih =>
    intro st hes ho
    have he := hes e (List.mem_cons_self _ _)
    have hes' : ∀ e' ∈ es,
        HasPrefix e'.1 "-".toList = true ∧ HasPrefix e'.2 "-".toList = false :=
      fun e' h => hes e' (List.mem_cons_of_mem _ h)
    have hne : e.1 ≠ [] := HasPrefix_dash_ne_nil e.1 he.1
    have hfl : flattenParameters (e :: es) = e.1 :: e.2 :: flattenParameters es := rfl
    rw [hfl, List.foldl_cons, List.foldl_cons, tokenStep_flag_idle st e.1 he.1 ho,
      tokenStep_value _ e.2 (by rw [he.2]; exact Bool.false_ne_true) hne, ih _ hes' rfl]
    rfl

theorem GoMap.get_foldl_set_of_not_mem {K V : Type} [DecidableEq K] (k : K) :
    ∀ (es : List (K × V)) (m : GoMap K V),
      k ∉ GoMap.keys es →
      GoMap.get (es.foldl (fun m e => GoMap.set m e.1 e.2) m) k = GoMap.get m k := by
  intro es
  induction es with
  | nil => intro m _; rfl
  | cons e es ih =>
    intro m hk
    simp only [GoMap.keys, List.map_cons, List.mem_cons, not_or] at hk
    rw [List.foldl_cons, ih _ hk.2, GoMap.get_set, if_neg (fun c => hk.1 c.symm)]

theorem GoMap.get_foldl_set_of_mem {K V : Type} [DecidableEq K] (k : K) (v : V) :
    ∀ (es : List (K × V)) (m : GoMap K V),
      (GoMap.keys es).Nodup → (k, v) ∈ es →
      GoMap.get (es.foldl (fun m e => GoMap.set m e.1 e.2) m) k = some v := by
  intro es
  induction es with
  | nil => intro m _ h; cases h
  | cons e es ih =>
    intro m hnd hmem
    simp only [GoMap.keys, List.map_cons, List.nodup_cons] at hnd
    rw [List.foldl_cons]
    rcases List.mem_cons.mp hmem with h | h
    · subst h
      rw [GoMap.get_foldl_set_of_not_mem k es _ hnd.1, GoMap.get_set, if_pos rfl]
    · exact ih _ hnd.2 h

theorem GoMap.get_of_not_mem_keys {K V : Type} [DecidableEq K] (m : GoMap K V) (k : K)
    (h : k ∉ GoMap.keys m) : GoMap.get m k = none := by
  induction m with
  | nil => rfl
  | cons a m ih =>
    obtain ⟨a, v⟩ := a
    simp only [GoMap.keys, List.map_cons, List.mem_cons, not_or] at h
    have hak : ¬ a = k := fun c => h.1 c.symm
    simp only [GoMap.get, hak, if_false]
    exact ih h.2

theorem GoMap.get_of_mem {K V : Type} [DecidableEq K] (m : GoMap K V) (k : K) (v : V)
    (hnd : (GoMap.keys m).Nodup) (h : (k, v) ∈ m) : GoMap.get m k = some v := by
  induction m with
  | nil => cases h
  | cons a m ih =>
    obtain ⟨a, w⟩ := a
    simp only [GoMap.keys, List.map_cons, List.nodup_cons] at hnd
    rcases List.mem_cons.mp h with h | h
    · cases h
      simp only [GoMap.get, if_true]
    · have hak : ¬ a = k := by
        intro c
        subst c
        exact hnd.1 (List.mem_map_of_mem Prod.fst h)
      simp only [GoMap.get, hak, if_false]
      exact ih hnd.2 h

/-- Writing the entries of a duplicate-free map into the empty map, in any order, gives
a map with the same reads. -/
theorem GoMap.get_foldl_set_perm (m es : GoMap GoString GoString)
    (hnd : (GoMap.keys m).Nodup) (hperm : es.Perm m) (k : GoString) :
    GoMap.get (es.foldl (fun m e => GoMap.set m e.1 e.2) []) k = GoMap.get m k := by
  have hnd' : (GoMap.keys es).Nodup := (hperm.map Prod.fst).nodup_iff.mpr hnd
  by_cases hk : k ∈ GoMap.keys m
  · obtain ⟨e, he, hek⟩ := List.mem_map.mp hk
    obtain ⟨k', v⟩ := e
    simp only at hek
    subst hek
    rw [GoMap.get_of_mem m k' v hnd he,
      GoMap.get_foldl_set_of_mem k' v es [] hnd' (hperm.mem_iff.mpr he)]
  · have hk' : k ∉ GoMap.keys es := fun c => hk ((hperm.map Prod.fst).mem_iff.mp c)
    rw [GoMap.get_of_not_mem_keys m k hk, GoMap.get_foldl_set_of_not_mem k es [] hk']
    rfl

theorem GetTargetAndClusterCommand_fst_of_env (env : GoString) (args : List GoString)
    (he : env ≠ []) : (GetTargetAndClusterCommand env args).1 = env := by
  unfold GetTargetAndClusterCommand targetAndStart
  split
  · rfl
  · simp only [if_neg he]
    split <;> rfl

theorem parseTokens_Command_trimmed (toks : List GoString) :
    ∃ X, (parseTokens toks).Command = Trim X " ".toList := by
  refine ⟨(toks.foldl tokenStep { userCommand := ⟨[], []⟩, option := [] }).userCommand.Command,
    ?_⟩
  unfold parseTokens tokenFinish
  split <;> rfl

/-- Tokenizing a command phrase that is not a flag, followed by flattened entries. -/
theorem parseTokens_flatten (c : GoString) (es : List (GoString × GoString))
    (hc : HasPrefix c "-".toList = false)
    (hes : ∀ e ∈ es, HasPrefix e.1 "-".toList = true ∧ HasPrefix e.2 "-".toList = false) :
    parseTokens (c :: flattenParameters es) =
      ⟨Trim (c ++ " ".toList) " ".toList, es.foldl (fun m e => GoMap.set m e.1 e.2) []⟩ := by
  unfold parseTokens
  rw [List.foldl_cons,
    tokenStep_word _ c (by rw [hc]; exact Bool.false_ne_true) rfl,
    tokenLoop_flatten es _ hes rfl]
  rfl

/-- Re-tokenizing the flattened result of any parse whose command phrase does not begin
with `-`. -/
theorem GetTargetAndClusterCommand_retokenize (env : GoString) (args : List GoString)
    (program : GoString) (es : List (GoString × GoString))
    (hcmd : HasPrefix (GetTargetAndClusterCommand env args).2.Command "-".toList = false)
    (hes : es.Perm (GetTargetAndClusterCommand env args).2.Parameters) :
    (GetTargetAndClusterCommand env
        (program :: (GetTargetAndClusterCommand env args).1 ::
          (GetTargetAndClusterCommand env args).2.Command :: flattenParameters es)).1 =
      (GetTargetAndClusterCommand env args).1 ∧
    (GetTargetAndClusterCommand env
        (program :: (GetTargetAndClusterCommand env args).1 ::
          (GetTargetAndClusterCommand env args).2.Command :: flattenParameters es)).2.Command =
      (GetTargetAndClusterCommand env args).2.Command ∧
    ∀ k, (GetTargetAndClusterCommand env
        (program :: (GetTargetAndClusterCommand env args).1 ::
          (GetTargetAndClusterCommand env args).2.Command ::
            flattenParameters es)).2.Parameters.get k =
      (GetTargetAndClusterCommand env args).2.Parameters.get k := by
  have hfm : FlagMap (GetTargetAndClusterCommand env args).2.Parameters := by
    rw [GetTargetAndClusterCommand_snd]
    exact parseTokens_FlagMap _
  have htrim : ∃ X, (GetTargetAndClusterCommand env args).2.Command = Trim X " ".toList := by
    rw [GetTargetAndClusterCommand_snd]
    exact parseTokens_Command_trimmed _
  have hfst := GetTargetAndClusterCommand_fst_of_env env args
  generalize (GetTargetAndClusterCommand env args).1 = target at hfst ⊢
  generalize (GetTargetAndClusterCommand env args).2 = first at hcmd hes hfm htrim ⊢
  have hes' : ∀ e ∈ es,
      HasPrefix e.1 "-".toList = true ∧ HasPrefix e.2 "-".toList = false :=
    fun e he => hfm.1 e (hes.mem_iff.mp he)
  have hsecond : GetTargetAndClusterCommand env
      (program :: target :: first.Command :: flattenParameters es) =
      (target, parseTokens (first.Command :: flattenParameters es)) := by
    unfold GetTargetAndClusterCommand targetAndStart
    have hlen : ¬ (program :: target :: first.Command :: flattenParameters es).length < 2 := by
      simp only [List.length_cons]
      omega
    rw [if_neg hlen]
    by_cases he : env = []
    · simp only [if_pos he]
      rfl
    · have ht : ¬ env ≠ (program :: env :: first.Command ::
          flattenParameters es).getD 1 [] := fun c => c rfl
      rw [hfst he]
      simp only [if_neg he, if_neg ht]
      rfl
  rw [hsecond, parseTokens_flatten first.Command es hcmd hes']
  refine ⟨rfl, ?_, ?_⟩
  · obtain ⟨X, hX⟩ := htrim
    show Trim (first.Command ++ " ".toList) " ".toList = first.Command
    rw [hX, Trim_Trim_append_space]
  · intro k
    exact GoMap.get_foldl_set_perm first.Parameters es hfm.2 hes k

/-- C9 as stated, refuted at an instance: with `CFPCC` unset and the arguments
`pcc cluster1 " -x"`, the parsed range is one command word (it does not begin with `-`)
and no flags; the command phrase, trimmed, is `-x` and `Parameters` is empty; flattening
gives the single token `-x`, and tokenizing again yields the empty command phrase and
the flag `-x` with value `"true"`. -/
theorem GetTargetAndClusterCommand_retokenize_counterexample :
    wordsThenFlagPairs (parsedRange [] ["pcc".toList, "cluster1".toList, " -x".toList]) = true ∧
    GetTargetAndClusterCommand [] ["pcc".toList, "cluster1".toList, " -x".toList] =
      ("cluster1".toList, ⟨"-x".toList, []⟩) ∧
    GetTargetAndClusterCommand []
        ("pcc".toList :: "cluster1".toList :: "-x".toList :: flattenParameters []) =
      ("cluster1".toList, ⟨[], [("-x".toList, "true".toList)]⟩) := by
  decide

/-- C9, amended: for every argument sequence whose parsed range consists of command
words followed only by well-formed `-flag value` / `-flag` pairs and whose parsed command
phrase does not begin with `-`, flattening the result back into tokens (the command
phrase, then for each entry of `Parameters`, in any order, the flag name followed by its
value) and tokenizing again with `GetTargetAndClusterCommand` yields the same target, the
same command phrase and the same flag-to-value mapping. -/
theorem GetTargetAndClusterCommand_roundtrip (env : GoString) (args : List GoString)
    (program : GoString) (es : List (GoString × GoString))
    (_hshape : wordsThenFlagPairs (parsedRange env args) = true)
    (hcmd : HasPrefix (GetTargetAndClusterCommand env args).2.Command "-".toList = false)
    (hes : es.Perm (GetTargetAndClusterCommand env args).2.Parameters) :
    (GetTargetAndClusterCommand env
        (program :: (GetTargetAndClusterCommand env args).1 ::
          (GetTargetAndClusterCommand env args).2.Command :: flattenParameters es)).1 =
      (GetTargetAndClusterCommand env args).1 ∧
    (GetTargetAndClusterCommand env
        (program :: (GetTargetAndClusterCommand env args).1 ::
          (GetTargetAndClusterCommand env args).2.Command :: flattenParameters es)).2.Command =
      (GetTargetAndClusterCommand env args).2.Command ∧
    ∀ k, (GetTargetAndClusterCommand env
        (program :: (GetTargetAndClusterCommand env args).1 ::
          (GetTargetAndClusterCommand env args).2.Command ::
            flattenParameters es)).2.Parameters.get k =
      (GetTargetAndClusterCommand env args).2.Parameters.get k :=
  GetTargetAndClusterCommand_retokenize env args program es hcmd hes

/-- C9, amended, at an instance: `pcc cluster1 list regions -v -name r1 -force` with
`CFPCC` unset, its entries flattened in the order `-v`, `-name`, `-force`. -/
theorem GetTargetAndClusterCommand_roundtrip_witness :
    (GetTargetAndClusterCommand []
        ["pcc".toList, "cluster1".toList, "list regions".toList, "-v".toList, "true".toList,
          "-name".toList, "r1".toList, "-force".toList, "true".toList]).2.Command =
      "list regions".toList ∧
    ∀ k, (GetTargetAndClusterCommand []
        ["pcc".toList, "cluster1".toList, "list regions".toList, "-v".toList, "true".toList,
          "-name".toList, "r1".toList, "-force".toList, "true".toList]).2.Parameters.get k =
      (GetTargetAndClusterCommand []
        ["pcc".toList, "cluster1".toList, "list".toList, "regions".toList, "-v".toList,
          "-name".toList, "r1".toList, "-force".toList]).2.Parameters.get k :=
  (GetTargetAndClusterCommand_roundtrip []
    ["pcc".toList, "cluster1".toList, "list".toList, "regions".toList, "-v".toList,
      "-name".toList, "r1".toList, "-force".toList]
    "pcc".toList
    [("-v".toList, "true".toList), ("-name".toList, "r1".toList),
      ("-force".toList, "true".toList)]
    (by decide) (by decide) (by decide)).2

/-! ## Lemmas on the group filter -/

theorem slice_inner (s : GoString) (h : 2 ≤ s.length) :
    slice s 1 ((s.length : Int) - 1) = some (s.drop 1).dropLast := by
  have hc : (0 : Int) ≤ 1 ∧ (1 : Int) ≤ (s.length : Int) - 1 ∧
      (s.length : Int) - 1 ≤ (s.length : Int) := by omega
  have h1 : ((s.length : Int) - 1).toNat = 1 + (s.length - 2) := by omega
  have h2 : (1 : Int).toNat = 1 := rfl
  unfold slice
  rw [if_pos hc, h1, h2, ← List.take_drop, List.dropLast_eq_take, List.length_drop]
  have h3 : s.length - 1 - 1 = s.length - 2 := by omega
  rw [h3]

theorem slice_inner_none (s : GoString) (h : ¬ 2 ≤ s.length) :
    slice s 1 ((s.length : Int) - 1) = none := by
  have hc : ¬ ((0 : Int) ≤ 1 ∧ (1 : Int) ≤ (s.length : Int) - 1 ∧
      (s.length : Int) - 1 ≤ (s.length : Int)) := by omega
  unfold slice
  rw [if_neg hc]

theorem groupsLoop_spec (fmtG : Float64 → GoString) (v : JSONValue) :
    ∀ G : List GoString, (G = [] ∨ 2 ≤ (SprintfS fmtG v).length) →
      groupsLoop fmtG v G = some (decide (∃ g ∈ G, g ∈ groupNames fmtG v)) := by
  intro G
  induction G with
  | nil =>
    intro _
    simp [groupsLoop]
  | cons g G ih =>
    intro h
    have hlen : 2 ≤ (SprintfS fmtG v).length := by
      rcases h with h | h
      · cases h
      · exact h
    have ih' := ih (Or.inr hlen)
    unfold groupsLoop
    simp only [slice_inner _ hlen, Option.bind_eq_bind, Option.some_bind, Option.pure_def]
    by_cases hg : g ∈ groupNames fmtG v
    · have hany : (Split ((SprintfS fmtG v).drop 1).dropLast ' ').any
          (fun regionName => decide (regionName = g)) = true := by
        rw [List.any_eq_true]
        exact ⟨g, hg, by simp⟩
      rw [if_pos hany]
      have : ∃ g' ∈ g :: G, g' ∈ groupNames fmtG v := ⟨g, List.mem_cons_self _ _, hg⟩
      simp only [this, decide_True]
    · have hany : ¬ (Split ((SprintfS fmtG v).drop 1).dropLast ' ').any
          (fun regionName => decide (regionName = g)) = true := by
        rw [List.any_eq_true]
        rintro ⟨x, hx, hxg⟩
        have : x = g := by simpa using hxg
        exact hg (this ▸ hx)
      rw [if_neg hany, ih']
      congr 1
      apply decide_eq_decide.mpr
      constructor
      · rintro ⟨g', hg', hm⟩
        exact ⟨g', List.mem_cons_of_mem _ hg', hm⟩
      · rintro ⟨g', hg', hm⟩
        rcases List.mem_cons.mp hg' with e | e
        · exact absurd (e ▸ hm) hg
        · exact ⟨g', e, hm⟩

theorem groupsLoop_none (fmtG : Float64 → GoString) (v : JSONValue) (g : GoString)
    (G : List GoString) (h : ¬ 2 ≤ (SprintfS fmtG v).length) :
    groupsLoop fmtG v (g :: G) = none := by
  unfold groupsLoop
  simp only [slice_inner_none _ h, Option.bind_eq_bind, Option.none_bind]

theorem groupsLoop_some (fmtG : Float64 → GoString) (v : JSONValue) (G : List GoString)
    (b : Bool) (h : groupsLoop fmtG v G = some b) :
    G = [] ∨ 2 ≤ (SprintfS fmtG v).length := by
  cases G with
  | nil => exact Or.inl rfl
  | cons g G =>
    by_cases hlen : 2 ≤ (SprintfS fmtG v).length
    · exact Or.inr hlen
    · rw [groupsLoop_none fmtG v g G hlen] at h
      cases h

theorem keysLoop_no_groups (fmtG : Float64 → GoString) (result : Record)
    (G : List GoString) :
    ∀ keys : List GoString, "groups".toList ∉ keys →
      keysLoop fmtG result G keys false = some false := by
  intro keys
  induction keys with
  | nil => intro _; rfl
  | cons key keys ih =>
    intro h
    have hk : ¬ key = "groups".toList := fun e => h (e ▸ List.mem_cons_self _ _)
    have hks : "groups".toList ∉ keys := fun e => h (List.mem_cons_of_mem _ e)
    unfold keysLoop
    rw [if_neg hk]
    simp only [Option.pure_def, Option.bind_eq_bind, Option.some_bind, Bool.false_eq_true,
      if_false]
    exact ih hks

theorem keysLoop_regions (fmtG : Float64 → GoString) (result : Record) (G : List GoString) :
    keysLoop fmtG result G (getTableHeadersFromClusterCommand "list-regions".toList) false =
      groupsLoop fmtG (result.index "groups".toList) G := by
  have hh : getTableHeadersFromClusterCommand "list-regions".toList =
      "name".toList :: "type".toList :: "groups".toList ::
        ["entryCount".toList, "regionAttributes".toList] := rfl
  have h1 : ¬ "name".toList = "groups".toList := by decide
  have h2 : ¬ "type".toList = "groups".toList := by decide
  have h3 : "groups".toList ∉ ["entryCount".toList, "regionAttributes".toList] := by decide
  rw [hh]
  unfold keysLoop
  rw [if_neg h1]
  simp only [Option.pure_def, Option.bind_eq_bind, Option.some_bind, Bool.false_eq_true,
    if_false]
  unfold keysLoop
  rw [if_neg h2]
  simp only [Option.pure_def, Option.bind_eq_bind, Option.some_bind, Bool.false_eq_true,
    if_false]
  unfold keysLoop
  rw [if_pos rfl]
  unfold isRegionInGroups
  simp only [Bool.false_eq_true, if_false]
  cases hg : groupsLoop fmtG (result.index "groups".toList) G with
  | none => rfl
  | some b =>
    cases b with
    | true => rfl
    | false =>
      simp only [Option.bind_eq_bind, Option.some_bind, Bool.false_eq_true, if_false]
      exact keysLoop_no_groups fmtG result G _ h3

theorem keysLoop_other (fmtG : Float64 → GoString) (result : Record) (G : List GoString)
    (k : GoString) (hk : k ≠ "list-regions".toList) :
    keysLoop fmtG result G (getTableHeadersFromClusterCommand k) false = some false := by
  apply keysLoop_no_groups
  unfold getTableHeadersFromClusterCommand
  rw [if_neg hk]
  split <;> decide

theorem recordsLoop_filter (fmtG : Float64 → GoString) (G : List GoString) (k : GoString)
    (f : Record → Bool) :
    ∀ (recs acc : List Record),
      (∀ result ∈ recs,
        keysLoop fmtG result G (getTableHeadersFromClusterCommand k) false =
          some (f result)) →
      recordsLoop fmtG G k recs acc = some (acc ++ recs.filter f) := by
  intro recs
  induction recs with
  | nil =>
    intro acc _
    simp [recordsLoop]
  | cons result recs ih =>
    intro acc h
    have hr := h result (List.mem_cons_self _ _)
    have hrest : ∀ r ∈ recs,
        keysLoop fmtG r G (getTableHeadersFromClusterCommand k) false = some (f r) :=
      fun r hr => h r (List.mem_cons_of_mem _ hr)
    unfold recordsLoop
    rw [hr]
    simp only [Option.bind_eq_bind, Option.some_bind]
    cases hf : f result with
    | true =>
      simp only [if_true, ih _ hrest, List.filter_cons_of_pos hf, List.append_assoc,
        List.singleton_append]
    | false =>
      have hf' : ¬ f result = true := by simp [hf]
      simp only [Bool.false_eq_true, if_false, ih _ hrest, List.filter_cons_of_neg hf']

theorem recordsLoop_some (fmtG : Float64 → GoString) (G : List GoString) (k : GoString) :
    ∀ (recs acc out : List Record), recordsLoop fmtG G k recs acc = some out →
      ∀ result ∈ recs,
        ∃ b, keysLoop fmtG result G (getTableHeadersFromClusterCommand k) false = some b := by
  intro recs
  induction recs with
  | nil =>
    intro _ _ _ result hmem
    cases hmem
  | cons r recs ih =>
    intro acc out h result hmem
    unfold recordsLoop at h
    cases hk : keysLoop fmtG r G (getTableHeadersFromClusterCommand k) false with
    | none =>
      rw [hk] at h
      simp at h
    | some b =>
      rw [hk] at h
      simp only [Option.bind_eq_bind, Option.some_bind] at h
      rcases List.mem_cons.mp hmem with e | e
      · exact ⟨b, e ▸ hk⟩
      · split at h
        · exact ih _ _ h result e
        · exact ih _ _ h result e

/-- The group filter is idempotent, whatever the command kind: when filtering `r` by `G`
under the kind `k` succeeds with output `r'`, filtering `r'` again by `G` and `k` returns
`r'`; status code, status message and member status of `r'` are those of `r`; and for the
kind `list-regions` the result of `r'` is the records of `r` whose group names share a
name with `G`. -/
theorem EditResponseOnGroup_idempotent (fmtG : Float64 → GoString)
    (r : ClusterManagementResult) (G : List GoString) (k : GoString)
    (r' : ClusterManagementResult) (h : EditResponseOnGroup fmtG r G k = some r') :
    EditResponseOnGroup fmtG r' G k = some r' ∧
      r'.StatusCode = r.StatusCode ∧ r'.StatusMessage = r.StatusMessage ∧
      r'.MemberStatus = r.MemberStatus ∧
      (k = "list-regions".toList → r'.Result = r.Result.filter (sharesGroup fmtG G)) := by
  unfold EditResponseOnGroup at h
  cases hl : recordsLoop fmtG G k r.Result [] with
  | none =>
    rw [hl] at h
    cases h
  | some out =>
    rw [hl, Option.map_some'] at h
    have hr' : r' = { r with Result := out } := (Option.some.inj h).symm
    have hall := recordsLoop_some fmtG G k r.Result [] out hl
    by_cases hk : k = "list-regions".toList
    · have hkeys : ∀ result ∈ r.Result,
          keysLoop fmtG result G (getTableHeadersFromClusterCommand k) false =
            some (sharesGroup fmtG G result) := by
        intro result hmem
        obtain ⟨b, hb⟩ := hall result hmem
        rw [hk, keysLoop_regions] at hb ⊢
        exact groupsLoop_spec fmtG _ G (groupsLoop_some fmtG _ G b hb)
      have hout : out = r.Result.filter (sharesGroup fmtG G) := by
        have := recordsLoop_filter fmtG G k (sharesGroup fmtG G) r.Result [] hkeys
        rw [hl] at this
        simpa using this
      have hkeys' : ∀ result ∈ out,
          keysLoop fmtG result G (getTableHeadersFromClusterCommand k) false =
            some (sharesGroup fmtG G result) := by
        intro result hmem
        rw [hout] at hmem
        exact hkeys result (List.mem_filter.mp hmem).1
      have hagain := recordsLoop_filter fmtG G k (sharesGroup fmtG G) out [] hkeys'
      have hfix : out.filter (sharesGroup fmtG G) = out := by
        rw [hout, List.filter_filter]
        simp only [Bool.and_self]
      rw [hfix] at hagain
      refine ⟨?_, ?_, ?_, ?_, ?_⟩
      · unfold EditResponseOnGroup
        rw [hr']
        simp only [hagain, List.nil_append, Option.map_some']
      · rw [hr']
      · rw [hr']
      · rw [hr']
      · intro _
        rw [hr', hout]
    · have hkeys : ∀ result : Record,
          keysLoop fmtG result G (getTableHeadersFromClusterCommand k) false =
            some ((fun _ => false) result) :=
        fun result => keysLoop_other fmtG result G k hk
      have hout : out = [] := by
        have := recordsLoop_filter fmtG G k (fun _ => false) r.Result []
          (fun result _ => hkeys result)
        rw [hl] at this
        simpa using this
      refine ⟨?_, ?_, ?_, ?_, ?_⟩
      · unfold EditResponseOnGroup
        rw [hr', hout]
        rfl
      · rw [hr']
      · rw [hr']
      · rw [hr']
      · intro hk'
        exact absurd hk' hk

/-- C4, amended: for the command kind `list-regions`, every decoded envelope `r` and
every list `G` of desired group names, none of which begins with `!`, such that `G` is
empty or the `%s` text of every record's `groups` value has at least two bytes:
`EditResponseOnGroup` returns `r` with its result replaced by exactly the records, in
their original order, whose group names (the `%s` text of the `groups` value, without its
first and last byte, split at every single space) share a name with `G`; and a record
with no `groups` field is excluded. -/
theorem EditResponseOnGroup_retains (fmtG : Float64 → GoString)
    (r : ClusterManagementResult) (G : List GoString)
    (hsafe : ∀ result ∈ r.Result,
      G = [] ∨ 2 ≤ (SprintfS fmtG (result.index "groups".toList)).length)
    (hnames : ∀ g ∈ G, g.head? ≠ some '!') :
    EditResponseOnGroup fmtG r G "list-regions".toList =
        some { r with Result := r.Result.filter (sharesGroup fmtG G) } ∧
      ∀ result : Record, GoMap.get result "groups".toList = none →
        sharesGroup fmtG G result = false := by
  constructor
  · have hkeys : ∀ result ∈ r.Result,
        keysLoop fmtG result G (getTableHeadersFromClusterCommand "list-regions".toList)
            false =
          some (sharesGroup fmtG G result) := by
      intro result hmem
      rw [keysLoop_regions]
      exact groupsLoop_spec fmtG _ G (hsafe result hmem)
    unfold EditResponseOnGroup
    rw [recordsLoop_filter fmtG G "list-regions".toList (sharesGroup fmtG G) r.Result []
      hkeys]
    rfl
  · intro result hnone
    have hidx : result.index "groups".toList = JSONValue.null := by
      unfold Record.index
      rw [hnone]
      rfl
    have hnil : groupNames fmtG JSONValue.null = ["!s(<nil>".toList] := rfl
    unfold sharesGroup
    rw [hidx, hnil, decide_eq_false_iff_not]
    rintro ⟨g, hg, hm⟩
    rw [List.mem_singleton] at hm
    exact hnames g hg (by rw [hm]; rfl)

/-- C4 as stated, refuted at four instances, each for every rendering `fmtG` of numbers.
With the desired group `groupA` and the kind `list-regions`, the record of the claim whose
`groups` is the string `[groupA, groupB]` is dropped: the text is split at spaces only, so
its names are `groupA,` and `groupB`.  The three other instances mark what the amended
statement leaves out: with the kind `list-members` a record whose `groups` is the list of
`groupA` is dropped; a record whose `groups` is the empty string makes the filter panic;
and with a desired group that begins with `!` a record with no `groups` field can be
retained. -/
theorem EditResponseOnGroup_retains_counterexample :
    (∀ fmtG : Float64 → GoString,
      EditResponseOnGroup fmtG
          ⟨"OK".toList, [], [],
            [[("name".toList, .string "r1".toList),
              ("groups".toList, .string "[groupA, groupB]".toList)]]⟩
          ["groupA".toList] "list-regions".toList =
        some ⟨"OK".toList, [], [], []⟩) ∧
    (∀ fmtG : Float64 → GoString,
      EditResponseOnGroup fmtG
          ⟨"OK".toList, [], [],
            [[("id".toList, .string "m1".toList),
              ("groups".toList, .array [.string "groupA".toList])]]⟩
          ["groupA".toList] "list-members".toList =
        some ⟨"OK".toList, [], [], []⟩) ∧
    (∀ fmtG : Float64 → GoString,
      EditResponseOnGroup fmtG
          ⟨"OK".toList, [], [],
            [[("name".toList, .string "r1".toList), ("groups".toList, .string [])]]⟩
          ["groupA".toList] "list-regions".toList = none) ∧
    (∀ fmtG : Float64 → GoString,
      EditResponseOnGroup fmtG
          ⟨"OK".toList, [], [], [[("name".toList, .string "r1".toList)]]⟩
          ["!s(<nil>".toList] "list-regions".toList =
        some ⟨"OK".toList, [], [], [[("name".toList, .string "r1".toList)]]⟩) :=
  ⟨fun _ => rfl, fun _ => rfl, fun _ => rfl, fun _ => rfl⟩

/-- C4, amended, at an instance: with the desired group `groupA` and the kind
`list-regions`, the record whose `groups` is the list of `groupA` and `groupB` (printed
`[groupA groupB]`) is retained, and the record with groups `[groupC]` and the record
with no `groups` field are excluded. -/
theorem EditResponseOnGroup_retains_witness :
    EditResponseOnGroup FormatF0
        ⟨"OK".toList, [], [],
          [[("name".toList, .string "r1".toList),
            ("groups".toList, .array [.string "groupA".toList, .string "groupB".toList])],
           [("name".toList, .string "r2".toList),
            ("groups".toList, .string "[groupC]".toList)],
           [("name".toList, .string "r3".toList)]]⟩
        ["groupA".toList] "list-regions".toList =
      some ⟨"OK".toList, [], [],
        [[("name".toList, .string "r1".toList),
          ("groups".toList, .array [.string "groupA".toList, .string "groupB".toList])]]⟩ :=
  (EditResponseOnGroup_retains FormatF0
    ⟨"OK".toList, [], [],
      [[("name".toList, .string "r1".toList),
        ("groups".toList, .array [.string "groupA".toList, .string "groupB".toList])],
       [("name".toList, .string "r2".toList),
        ("groups".toList, .string "[groupC]".toList)],
       [("name".toList, .string "r3".toList)]]⟩
    ["groupA".toList] (by decide) (by decide)).1

/-- C10, the code at a `list-members` envelope (failing input), for every rendering
`fmtG` of numbers: with the kind `list-members` and the desired group `groupA`, the filter
returns the envelope with an empty result, although the one record of the envelope has
the group name `groupA`, so that the output is not the envelope restricted to the records
whose groups intersect the desired groups. -/
theorem EditResponseOnGroup_list_members_dropped :
    (∀ fmtG : Float64 → GoString,
      EditResponseOnGroup fmtG
          ⟨"OK".toList, "done".toList, [⟨"server1".toList, true, [] ⟩],
            [[("id".toList, .string "server1".toList),
              ("groups".toList, .array [.string "groupA".toList])]]⟩
          ["groupA".toList] "list-members".toList =
        some ⟨"OK".toList, "done".toList, [⟨"server1".toList, true, [] ⟩], []⟩) ∧
    (∀ fmtG : Float64 → GoString,
      sharesGroup fmtG ["groupA".toList]
          [("id".toList, .string "server1".toList),
            ("groups".toList, .array [.string "groupA".toList])] = true) :=
  ⟨fun _ => rfl, fun _ => rfl⟩

/-! ## Lemmas on the table -/

theorem appendCell_eq (fmtG : Float64 → GoString) (result : Record)
    (response key : GoString) :
    appendCell fmtG result response key =
      some (response ++ (padCell (cellText fmtG (result.index key)) ++ "|".toList)) := by
  unfold appendCell
  cases result.index key <;> simp only [Fill_twenty_eq, Option.map_some'] <;> rfl

theorem foldlM_appendCell (fmtG : Float64 → GoString) (result : Record) :
    ∀ (tableHeaders : List GoString) (response : GoString),
      tableHeaders.foldlM (appendCell fmtG result) response =
        some (response ++ tableRow fmtG tableHeaders result) := by
  intro tableHeaders
  induction tableHeaders with
  | nil =>
    intro response
    simp [tableRow]
  | cons key keys ih =>
    intro response
    rw [List.foldlM_cons, appendCell_eq]
    simp only [Option.bind_eq_bind, Option.some_bind, ih, tableRow, List.flatMap_cons,
      List.append_assoc]

theorem appendRow_eq (fmtG : Float64 → GoString) (tableHeaders : List GoString)
    (acc : GoString × Nat) (result : Record) :
    appendRow fmtG tableHeaders acc result =
      some (acc.1 ++ (tableRow fmtG tableHeaders result ++ "\n".toList), acc.2 + 1) := by
  unfold appendRow
  rw [foldlM_appendCell, Option.map_some', List.append_assoc]

theorem foldlM_appendRow (fmtG : Float64 → GoString) (tableHeaders : List GoString) :
    ∀ (results : List Record) (acc : GoString × Nat),
      results.foldlM (appendRow fmtG tableHeaders) acc =
        some (acc.1 ++
            results.flatMap (fun result => tableRow fmtG tableHeaders result ++ "\n".toList),
          acc.2 + results.length) := by
  intro results
  induction results with
  | nil =>
    intro acc
    simp
  | cons result results ih =>
    intro acc
    rw [List.foldlM_cons, appendRow_eq]
    simp only [Option.bind_eq_bind, Option.some_bind, ih, List.flatMap_cons,
      List.append_assoc, List.length_cons]
    congr 2
    omega

theorem foldlM_header :
    ∀ (tableHeaders : List GoString) (response : GoString),
      tableHeaders.foldlM
          (fun response header =>
            (Fill 20 header " ".toList).map fun cell => response ++ (cell ++ "|".toList))
          response =
        some (response ++ headerRow tableHeaders) := by
  intro tableHeaders
  induction tableHeaders with
  | nil =>
    intro response
    simp [headerRow]
  | cons header headers ih =>
    intro response
    rw [List.foldlM_cons, Fill_twenty_eq]
    simp only [Option.map_some', Option.bind_eq_bind, Option.some_bind, ih, headerRow,
      List.flatMap_cons, List.append_assoc]

theorem replicate_dash_flatten (n : Nat) :
    (List.replicate n "-".toList).flatten = List.replicate n '-' := by
  induction n with
  | zero => rfl
  | succ n ih =>
    simp only [List.replicate_succ, List.flatten_cons, ih]
    rfl

theorem Fill_separator (n : Nat) :
    Fill (20 * (n : Int) + 5) [] "-".toList = some (separatorLine n) := by
  have h1 : ¬ ((([] : GoString).length : Int) > 20 * (n : Int) + 5 - 1) := by
    simp only [List.length_nil]
    omega
  have h2 : ¬ (20 * (n : Int) + 5 - (([] : GoString).length : Int) - 1 < 0) := by
    simp only [List.length_nil]
    omega
  have h3 : (20 * (n : Int) + 5 - (([] : GoString).length : Int) - 1).toNat = 20 * n + 4 := by
    simp only [List.length_nil]
    omega
  unfold Fill
  simp only [h1, if_false, Repeat, h2, Option.map_some', h3, replicate_dash_flatten]
  rfl

/-- The answer of `GetAnswerFromUrlResponse` in closed form: it always returns, and the
text is the status lines, the header row, the separator line, one row per record and the
summary. -/
theorem GetAnswerFromUrlResponse_eq (fmtG : Float64 → GoString) (clusterCommand : GoString)
    (urlOutput : ClusterManagementResult) :
    GetAnswerFromUrlResponse fmtG clusterCommand urlOutput =
      some (statusLines urlOutput ++
        headerRow (getTableHeadersFromClusterCommand clusterCommand) ++
        ("\n".toList ++
          separatorLine (getTableHeadersFromClusterCommand clusterCommand).length ++
          "\n".toList) ++
        urlOutput.Result.flatMap (fun result =>
          tableRow fmtG (getTableHeadersFromClusterCommand clusterCommand) result ++
            "\n".toList) ++
        summaryLine clusterCommand urlOutput.Result.length) := by
  unfold GetAnswerFromUrlResponse
  simp only [foldlM_header, Fill_separator, foldlM_appendRow, Option.bind_eq_bind,
    Option.some_bind, Option.pure_def, Nat.zero_add]
  unfold summaryLine statusLines
  have h12 : ¬ "list-members".toList = "list-regions".toList := by decide
  by_cases hm : urlOutput.StatusMessage = []
  · by_cases h1 : clusterCommand = "list-regions".toList
    · simp only [hm, h1, ne_eq, not_true_eq_false, if_true, if_false, List.append_assoc,
        List.append_nil, List.nil_append]
    · by_cases h2 : clusterCommand = "list-members".toList
      · simp only [hm, h2, h12, ne_eq, not_true_eq_false, if_true, if_false,
          List.append_assoc, List.append_nil, List.nil_append]
      · simp only [hm, h1, h2, ne_eq, not_true_eq_false, if_false, List.append_assoc,
          List.append_nil, List.nil_append]
  · by_cases h1 : clusterCommand = "list-regions".toList
    · simp only [hm, h1, ne_eq, not_false_eq_true, if_true, List.append_assoc,
        List.append_nil]
    · by_cases h2 : clusterCommand = "list-members".toList
      · simp only [hm, h2, h12, ne_eq, not_false_eq_true, if_true, if_false,
          List.append_assoc, List.append_nil]
      · simp only [hm, h1, h2, ne_eq, not_false_eq_true, if_true, if_false,
          List.append_assoc, List.append_nil]

set_option maxRecDepth 100000 in
/-- C5 as stated, refuted at its own example, for every rendering `fmtG` of numbers: for
the record with name `region1`, type `PARTITION`, groups `[groupA]` and entry count `5.0`
the answer holds the row whose five cells have 20 bytes each before the `|`; the row of
the claim, whose last four cells have 21 bytes, is not the row rendered and occurs
nowhere in the answer. -/
theorem GetAnswerFromUrlResponse_row_counterexample :
    (∀ fmtG : Float64 → GoString,
      GetAnswerFromUrlResponse fmtG "list-regions".toList
          ⟨"OK".toList, [], [],
            [[("name".toList, .string "region1".toList), ("type".toList, .string "PARTITION".toList),
            ("groups".toList, .string "[groupA]".toList),
            ("entryCount".toList, .number ⟨false, 5, 0⟩)]]⟩ =
        some ("Status Code: OK\n\n name               | type               | groups             | entryCount         | regionAttributes   |\n" ++
          " --------------------------------------------------------------------------------------------------------\n" ++
          " region1            | PARTITION          | [groupA]           | 5                  |                    |\n" ++
          "\nNumber of Regions: 1").toList) ∧
    ¬ (" region1            | PARTITION           | [groupA]            | 5                   |                     |").toList <:+:
      ("Status Code: OK\n\n name               | type               | groups             | entryCount         | regionAttributes   |\n" ++
          " --------------------------------------------------------------------------------------------------------\n" ++
          " region1            | PARTITION          | [groupA]           | 5                  |                    |\n" ++
          "\nNumber of Regions: 1").toList := by
  refine ⟨fun _ => rfl, ?_⟩
  decide

set_option maxRecDepth 100000 in
/-- C5, amended: for every decoded envelope, `GetAnswerFromUrlResponse` for `list-regions`
returns the status lines, the header row, the separator line, then for every record, in
order, its row and a newline, then the count of regions; the row of a record is the
concatenation, in the header order name, type, groups, entryCount, regionAttributes, of
`Fill(20, text, " ")` followed by `|`, where `text` is empty for a field absent from the
record, the value itself for a string field and the number printed with zero decimal
places for a numeric field; so the record with name `region1`, type `PARTITION`, groups
`[groupA]` and entry count `5.0` renders as the row whose five cells have 20 bytes each. -/
theorem GetAnswerFromUrlResponse_region_rows (fmtG : Float64 → GoString)
    (urlOutput : ClusterManagementResult) :
    GetAnswerFromUrlResponse fmtG "list-regions".toList urlOutput =
        some (statusLines urlOutput ++
          headerRow ["name".toList, "type".toList, "groups".toList, "entryCount".toList,
            "regionAttributes".toList] ++
          ("\n".toList ++ separatorLine 5 ++ "\n".toList) ++
          urlOutput.Result.flatMap (fun result =>
            tableRow fmtG ["name".toList, "type".toList, "groups".toList,
              "entryCount".toList, "regionAttributes".toList] result ++ "\n".toList) ++
          ("\nNumber of Regions: ".toList ++ Itoa urlOutput.Result.length)) ∧
      (∀ (result : Record) (tableHeaders : List GoString),
        (tableHeaders.mapM fun key =>
            (Fill 20 (cellText fmtG (result.index key)) " ".toList).map
              fun cell => cell ++ "|".toList) =
          some (tableHeaders.map fun key =>
            padCell (cellText fmtG (result.index key)) ++ "|".toList) ∧
        tableRow fmtG tableHeaders result =
          (tableHeaders.map fun key =>
            padCell (cellText fmtG (result.index key)) ++ "|".toList).flatten) ∧
      (∀ (result : Record) (key : GoString),
        cellText fmtG (result.index key) =
          match GoMap.get result key with
          | none => []
          | some (.string s) => s
          | some (.number n) => FormatF0 n
          | some .null => []
          | some v => SprintfS fmtG v) ∧
      tableRow fmtG ["name".toList, "type".toList, "groups".toList, "entryCount".toList,
          "regionAttributes".toList]
          [("name".toList, .string "region1".toList),
            ("type".toList, .string "PARTITION".toList),
            ("groups".toList, .string "[groupA]".toList),
            ("entryCount".toList, .number ⟨false, 5, 0⟩)] =
        " region1            | PARTITION          | [groupA]           | 5                  |                    |".toList := by
  refine ⟨?_, ?_, ?_, rfl⟩
  · rw [GetAnswerFromUrlResponse_eq]
    rfl
  · intro result tableHeaders
    constructor
    · induction tableHeaders with
      | nil => rfl
      | cons key keys ih =>
        rw [List.mapM_cons, Fill_twenty_eq, ih]
        rfl
    · unfold tableRow
      rw [List.flatMap_def]
  · intro result key
    unfold Record.index
    cases hget : GoMap.get result key with
    | none => rfl
    | some v => cases v <;> rfl

/-! ## Lemmas on the endpoint catalog -/

theorem GoMap.erase_of_not_mem {K V : Type} [DecidableEq K] (m : GoMap K V) (k : K)
    (h : k ∉ GoMap.keys m) : GoMap.erase m k = m := by
  induction m with
  | nil => rfl
  | cons a m ih =>
    obtain ⟨a, v⟩ := a
    simp only [GoMap.keys, List.map_cons, List.mem_cons, not_or] at h
    have hak : ¬ a = k := fun c => h.1 c.symm
    simp only [GoMap.erase, hak, if_false]
    rw [ih h.2]

theorem GoMap.mem_keys_erase_of_ne {K V : Type} [DecidableEq K] (m : GoMap K V) (k k' : K)
    (h : k' ∈ GoMap.keys m) (hne : k' ≠ k) : k' ∈ GoMap.keys (GoMap.erase m k) := by
  induction m with
  | nil => cases h
  | cons a m ih =>
    obtain ⟨a, v⟩ := a
    simp only [GoMap.keys, List.map_cons, List.mem_cons] at h
    by_cases hak : a = k
    · simp only [GoMap.erase, hak, if_true]
      rcases h with h | h
      · exact absurd (h.trans hak) hne
      · exact ih h
    · simp only [GoMap.erase, hak, if_false, GoMap.keys, List.map_cons, List.mem_cons]
      rcases h with h | h
      · exact Or.inl h
      · exact Or.inr (ih h)

theorem GoMap.mem_keys_foldl_set {K V : Type} [DecidableEq K] (k : K) :
    ∀ (es : List (K × V)) (m : GoMap K V),
      k ∈ GoMap.keys (es.foldl (fun m e => GoMap.set m e.1 e.2) m) ↔
        k ∈ GoMap.keys m ∨ k ∈ GoMap.keys es := by
  intro es
  induction es with
  | nil =>
    intro m
    simp [GoMap.keys]
  | cons e es ih =>
    intro m
    rw [List.foldl_cons, ih]
    constructor
    · rintro (h | h)
      · rcases GoMap.mem_keys_set m e.1 k e.2 h with h' | h'
        · exact Or.inr (by simp [GoMap.keys, h'])
        · exact Or.inl h'
      · exact Or.inr (by
          simp only [GoMap.keys, List.map_cons, List.mem_cons]
          exact Or.inr h)
    · rintro (h | h)
      · by_cases hk : k = e.1
        · exact Or.inl (by simp [GoMap.set, GoMap.keys, hk])
        · refine Or.inl ?_
          simp only [GoMap.set, GoMap.keys, List.map_cons, List.mem_cons]
          exact Or.inr (GoMap.mem_keys_erase_of_ne m e.1 k h hk)
      · simp only [GoMap.keys, List.map_cons, List.mem_cons] at h
        rcases h with h | h
        · exact Or.inl (by simp [GoMap.set, GoMap.keys, h])
        · exact Or.inr h

theorem GoMap.mem_of_get_foldl_set {K V : Type} [DecidableEq K] (k : K) (v : V) :
    ∀ (es : List (K × V)) (m : GoMap K V),
      GoMap.get (es.foldl (fun m e => GoMap.set m e.1 e.2) m) k = some v →
      (k, v) ∈ es ∨ GoMap.get m k = some v := by
  intro es
  induction es with
  | nil =>
    intro m h
    exact Or.inr h
  | cons e es ih =>
    intro m h
    rw [List.foldl_cons] at h
    rcases ih _ h with h' | h'
    · exact Or.inl (List.mem_cons_of_mem _ h')
    · rw [GoMap.get_set] at h'
      by_cases hk : e.1 = k
      · rw [if_pos hk] at h'
        have hv : e.2 = v := Option.some.inj h'
        refine Or.inl ?_
        have : e = (k, v) := Prod.ext hk hv
        rw [this]
        exact List.mem_cons_self _ _
      · rw [if_neg hk] at h'
        exact Or.inr h'

theorem GoMap.length_foldl_set {K V : Type} [DecidableEq K] :
    ∀ (es : List (K × V)) (m : GoMap K V),
      (GoMap.keys es).Nodup → (∀ k ∈ GoMap.keys es, k ∉ GoMap.keys m) →
      (es.foldl (fun m e => GoMap.set m e.1 e.2) m).length = m.length + es.length := by
  intro es
  induction es with
  | nil => intro m _ _; rfl
  | cons e es ih =>
    intro m hnd hdis
    simp only [GoMap.keys, List.map_cons, List.nodup_cons] at hnd
    have he : e.1 ∉ GoMap.keys m := hdis e.1 (by simp [GoMap.keys])
    have hdis' : ∀ k ∈ GoMap.keys es, k ∉ GoMap.keys (GoMap.set m e.1 e.2) := by
      intro k hk hmem
      rcases GoMap.mem_keys_set m e.1 k e.2 hmem with h | h
      · exact hnd.1 (h ▸ hk)
      · exact hdis k (by
          simp only [GoMap.keys, List.map_cons, List.mem_cons]
          exact Or.inr hk) h
    rw [List.foldl_cons, ih _ hnd.2 hdis']
    simp only [GoMap.set, GoMap.erase_of_not_mem m e.1 he, List.length_cons]
    omega

theorem RestAPI.at_of_mem (apiPaths : RestAPI) (url methodType : GoString)
    (v : GoMap GoString RestAPICall) (call : RestAPICall)
    (hpaths : (GoMap.keys apiPaths.Paths).Nodup) (hv : (GoMap.keys v).Nodup)
    (hmem : (url, v) ∈ apiPaths.Paths) (hcall : (methodType, call) ∈ v) :
    apiPaths.at url methodType = call := by
  unfold RestAPI.at
  rw [GoMap.get_of_mem apiPaths.Paths url v hpaths hmem]
  simp only [Option.getD_some]
  rw [GoMap.get_of_mem v methodType call hv hcall]
  rfl

theorem methodsLoop_eq (apiPaths : RestAPI) (url : GoString)
    (v : GoMap GoString RestAPICall) (endpoints : GoMap GoString RestEndPoint)
    (hpaths : (GoMap.keys apiPaths.Paths).Nodup) (hv : (GoMap.keys v).Nodup)
    (hmem : (url, v) ∈ apiPaths.Paths) :
    methodsLoop apiPaths url v endpoints =
      (v.map fun call => endpointOf (url, call.1, call.2)).foldl
        (fun m e => GoMap.set m e.1 e.2) endpoints := by
  unfold methodsLoop
  rw [List.foldl_map]
  apply List.foldl_ext
  intro acc entry hentry
  obtain ⟨methodType, call⟩ := entry
  simp only [RestAPI.at_of_mem apiPaths url methodType v call hpaths hv hmem hentry]
  rfl

theorem foldl_methodsLoop (apiPaths : RestAPI)
    (hpaths : (GoMap.keys apiPaths.Paths).Nodup)
    (hmethods : ∀ entry ∈ apiPaths.Paths, (GoMap.keys entry.2).Nodup) :
    ∀ (paths : GoMap GoString (GoMap GoString RestAPICall))
      (endpoints : GoMap GoString RestEndPoint),
      (∀ entry ∈ paths, entry ∈ apiPaths.Paths) →
      paths.foldl (fun endpoints entry => methodsLoop apiPaths entry.1 entry.2 endpoints)
          endpoints =
        ((paths.flatMap fun entry =>
            entry.2.map fun call => (entry.1, call.1, call.2)).map endpointOf).foldl
          (fun m e => GoMap.set m e.1 e.2) endpoints := by
  intro paths
  induction paths with
  | nil => intro endpoints _; rfl
  | cons entry paths ih =>
    intro endpoints hsub
    have hentry : entry ∈ apiPaths.Paths := hsub entry (List.mem_cons_self _ _)
    have hsub' : ∀ e ∈ paths, e ∈ apiPaths.Paths :=
      fun e he => hsub e (List.mem_cons_of_mem _ he)
    rw [List.foldl_cons, ih _ hsub',
      methodsLoop_eq apiPaths entry.1 entry.2 endpoints hpaths (hmethods entry hentry) hentry,
      List.flatMap_cons, List.map_append, List.foldl_append, List.map_map]
    rfl

theorem pathsLoop_eq (apiPaths : RestAPI)
    (hpaths : (GoMap.keys apiPaths.Paths).Nodup)
    (hmethods : ∀ entry ∈ apiPaths.Paths, (GoMap.keys entry.2).Nodup) :
    pathsLoop apiPaths =
      ((declaredPairs apiPaths).map endpointOf).foldl (fun m e => GoMap.set m e.1 e.2) [] :=
  foldl_methodsLoop apiPaths hpaths hmethods apiPaths.Paths [] (fun _ h => h)

theorem keys_map_endpointOf (pairs : List (GoString × GoString × RestAPICall)) :
    GoMap.keys (pairs.map endpointOf) = pairs.map fun p => p.2.2.CommandName := by
  unfold GoMap.keys
  rw [List.map_map]
  rfl

/-- C6: when the API document is fetched and parses to `apiPaths` (a Go map: no path
occurs twice and under a path no method occurs twice), `GetEndPoints` succeeds and stores
a catalog whose key set is exactly the set of command names declared by the document's
(path, method) pairs; every entry read under a key `k` has `CommandName = k` and the URL,
method and parameters of one pair that declares `k`; and when the declared command names
are pairwise distinct the catalog has as many entries as there are pairs, each pair being
read back under its command name. -/
theorem GetEndPoints_catalog (osOpen : GoString → Except GoString GoString)
    (transport : HTTPRequest → Except GoString GoString)
    (unmarshal : GoString → Option RestAPI) (commandData : CommandData)
    (urlResponse : GoString) (apiPaths : RestAPI)
    (hresp : ExecuteCommand osOpen transport
      (commandData.ConnnectionData.LocatorAddress ++
        "/management/experimental/api-docs".toList) "GET".toList commandData =
        .ok urlResponse)
    (hdoc : unmarshal urlResponse = some apiPaths)
    (hpaths : (GoMap.keys apiPaths.Paths).Nodup)
    (hmethods : ∀ entry ∈ apiPaths.Paths, (GoMap.keys entry.2).Nodup) :
    ∃ catalog : GoMap GoString RestEndPoint,
      GetEndPoints osOpen transport unmarshal commandData =
        .ok { commandData with AvailableEndpoints := catalog } ∧
      (∀ k, k ∈ GoMap.keys catalog ↔ ∃ p ∈ declaredPairs apiPaths, p.2.2.CommandName = k) ∧
      (∀ k e, GoMap.get catalog k = some e →
        e.CommandName = k ∧
          ∃ p ∈ declaredPairs apiPaths, p.2.2.CommandName = k ∧ e.URL = p.1 ∧
            e.HTTPMethod = p.2.1 ∧ e.Parameters = p.2.2.Parameters) ∧
      (((declaredPairs apiPaths).map fun p => p.2.2.CommandName).Nodup →
        catalog.length = (declaredPairs apiPaths).length ∧
          ∀ p ∈ declaredPairs apiPaths,
            GoMap.get catalog p.2.2.CommandName = some (endpointOf p).2) := by
  refine ⟨pathsLoop apiPaths, ?_, ?_, ?_, ?_⟩
  · unfold GetEndPoints
    simp only [hresp, hdoc]
  · intro k
    rw [pathsLoop_eq apiPaths hpaths hmethods, GoMap.mem_keys_foldl_set, keys_map_endpointOf]
    constructor
    · rintro (h | h)
      · cases h
      · obtain ⟨p, hp, hk⟩ := List.mem_map.mp h
        exact ⟨p, hp, hk⟩
    · rintro ⟨p, hp, hk⟩
      exact Or.inr (List.mem_map.mpr ⟨p, hp, hk⟩)
  · intro k e hget
    rw [pathsLoop_eq apiPaths hpaths hmethods] at hget
    rcases GoMap.mem_of_get_foldl_set k e _ _ hget with h | h
    · obtain ⟨p, hp, hpe⟩ := List.mem_map.mp h
      have h1 : p.2.2.CommandName = k := congrArg Prod.fst hpe
      have h2 : (endpointOf p).2 = e := congrArg Prod.snd hpe
      subst h2
      exact ⟨h1, p, hp, h1, rfl, rfl, rfl⟩
    · cases h
  · intro hnd
    rw [pathsLoop_eq apiPaths hpaths hmethods]
    have hnd' : (GoMap.keys ((declaredPairs apiPaths).map endpointOf)).Nodup := by
      rw [keys_map_endpointOf]
      exact hnd
    constructor
    · rw [GoMap.length_foldl_set _ [] hnd' (fun _ _ h => by cases h), List.length_map]
      simp
    · intro p hp
      exact GoMap.get_foldl_set_of_mem p.2.2.CommandName (endpointOf p).2 _ [] hnd'
        (List.mem_map.mpr ⟨p, hp, rfl⟩)

/-- C6, at an instance: the document with the one path `/regions`, the one method `GET`
and the command name `list-regions` yields a catalog in which `list-regions` is read as
the endpoint with method `GET` and URL `/regions`. -/
theorem GetEndPoints_catalog_witness :
    ∃ catalog : GoMap GoString RestEndPoint,
      GetEndPoints (fun _ => .error []) (fun _ => .ok "doc".toList)
          (fun _ => some ⟨[("/regions".toList,
            [("GET".toList, ⟨"list-regions".toList, []⟩)])]⟩)
          ⟨"cluster1".toList, ⟨"list regions".toList, []⟩,
            ⟨"user".toList, "secret".toList, "https://locator".toList⟩, []⟩ =
        .ok ⟨"cluster1".toList, ⟨"list regions".toList, []⟩,
            ⟨"user".toList, "secret".toList, "https://locator".toList⟩, catalog⟩ ∧
      catalog.length = 1 ∧
      GoMap.get catalog "list-regions".toList =
        some ⟨"/regions".toList, "GET".toList, "list-regions".toList, []⟩ := by
  obtain ⟨catalog, h1, _, _, h4⟩ :=
    GetEndPoints_catalog (fun _ => .error []) (fun _ => .ok "doc".toList)
      (fun _ => some ⟨[("/regions".toList, [("GET".toList, ⟨"list-regions".toList, []⟩)])]⟩)
      ⟨"cluster1".toList, ⟨"list regions".toList, []⟩,
        ⟨"user".toList, "secret".toList, "https://locator".toList⟩, []⟩
      "doc".toList
      ⟨[("/regions".toList, [("GET".toList, ⟨"list-regions".toList, []⟩)])]⟩
      rfl rfl (by decide) (by decide)
  exact ⟨catalog, h1, (h4 (by decide)).1,
    (h4 (by decide)).2 ("/regions".toList, "GET".toList, ⟨"list-regions".toList, []⟩)
      (by decide)⟩

/-! ## The separator line -/

theorem newline_not_mem_headerRow (clusterCommand : GoString) :
    '\n' ∉ headerRow (getTableHeadersFromClusterCommand clusterCommand) := by
  unfold getTableHeadersFromClusterCommand
  split
  · decide
  · split <;> decide

theorem newline_not_mem_dashes (m : Nat) :
    '\n' ∉ " ".toList ++ List.replicate m '-' := by
  intro h
  rcases List.mem_append.mp h with h | h
  · revert h
    decide
  · have := List.eq_of_mem_replicate h
    revert this
    decide

set_option maxRecDepth 100000 in
/-- C11 as stated, refuted at an instance, for every rendering `fmtG` of numbers: for
`list-regions` (5 columns) and the envelope with status code `OK` and no record, the
third line of the answer is the header row and the line after it is one space followed
by 104 dashes; that line is not made of 105 dashes: it has 105 bytes, of which 104 are
dashes. -/
theorem GetAnswerFromUrlResponse_separator_counterexample :
    (∀ fmtG : Float64 → GoString,
      (GetAnswerFromUrlResponse fmtG "list-regions".toList ⟨"OK".toList, [], [], []⟩).map
          (fun response => ((Split response '\n')[2]?, (Split response '\n')[3]?)) =
        some (some " name               | type               | groups             | entryCount         | regionAttributes   |".toList,
          some " --------------------------------------------------------------------------------------------------------".toList)) ∧
    " --------------------------------------------------------------------------------------------------------".toList ≠
      List.replicate (20 * 5 + 5) '-' ∧
    (" --------------------------------------------------------------------------------------------------------".toList).length =
      20 * 5 + 5 ∧
    (" --------------------------------------------------------------------------------------------------------".toList).count '-' =
      20 * 5 + 4 := by
  refine ⟨fun _ => rfl, ?_, ?_, ?_⟩ <;> decide

/-- C11, amended: for every command kind with `n` table columns (`n = 5` for
`list-regions`, `n = 4` for `list-members`, `n = 0` for an unknown kind) and every decoded
envelope, `GetAnswerFromUrlResponse` returns, and the line it emits immediately after the
header row is one space followed by `20 * n + 4` dash characters, so that the line spans
exactly `20 * n + 5` characters; neither the header row nor that line holds a newline. -/
theorem GetAnswerFromUrlResponse_separator (fmtG : Float64 → GoString)
    (clusterCommand : GoString) (urlOutput : ClusterManagementResult) :
    ∃ rest : GoString,
      GetAnswerFromUrlResponse fmtG clusterCommand urlOutput =
        some (statusLines urlOutput ++
          headerRow (getTableHeadersFromClusterCommand clusterCommand) ++ "\n".toList ++
          (" ".toList ++
            List.replicate
              (20 * (getTableHeadersFromClusterCommand clusterCommand).length + 4) '-') ++
          "\n".toList ++ rest) ∧
      (getTableHeadersFromClusterCommand clusterCommand).length =
        (if clusterCommand = "list-regions".toList then 5
          else if clusterCommand = "list-members".toList then 4 else 0) ∧
      (" ".toList ++
        List.replicate
          (20 * (getTableHeadersFromClusterCommand clusterCommand).length + 4) '-').length =
        20 * (getTableHeadersFromClusterCommand clusterCommand).length + 5 ∧
      '\n' ∉ headerRow (getTableHeadersFromClusterCommand clusterCommand) ∧
      '\n' ∉ " ".toList ++
        List.replicate
          (20 * (getTableHeadersFromClusterCommand clusterCommand).length + 4) '-' := by
  refine ⟨urlOutput.Result.flatMap (fun result =>
      tableRow fmtG (getTableHeadersFromClusterCommand clusterCommand) result ++
        "\n".toList) ++ summaryLine clusterCommand urlOutput.Result.length,
    ?_, ?_, ?_, newline_not_mem_headerRow clusterCommand, newline_not_mem_dashes _⟩
  · rw [GetAnswerFromUrlResponse_eq]
    simp only [separatorLine, List.append_assoc]
    rfl
  · unfold getTableHeadersFromClusterCommand
    split
    · rfl
    · split <;> rfl
  · rw [List.length_append, List.length_replicate]
    show 1 + (20 * (getTableHeadersFromClusterCommand clusterCommand).length + 4) = _
    omega

end GemfirePlugin
